import Mathlib

/-!
# Verification of the django-silky analytics core

Shallow embedding of the analytics functions of the repository:

* `silk/views/summary.py` — `_percentile`, `SummaryView._status_distribution`,
  `SummaryView._response_time_histogram`
* `silk/utils/n_plus_one.py` — `fingerprint_query`, `NPlusOneGroup`,
  `detect_n_plus_one`
* `silk/views/requests.py` — `SORT_OPTIONS`, `_apply_sort`,
  `RequestsView._get_objects`, `RequestsView.post`

Numeric fields are modelled with `ℚ` (Python floats carry exact decimal
inputs in all relevant paths); strings are modelled as `List Char`.
-/

namespace Silky

/-! ## Percentile estimator (`summary.py::_percentile`) -/

/-- Python `int(x)` on a float/rational: truncation toward zero. -/
def pyInt (x : ℚ) : ℤ := if x < 0 then -⌊-x⌋ else ⌊x⌋

/-- Embedding of `_percentile(sorted_data, p)` from `silk/views/summary.py`.
List indexing is totalised with default `0`; inside the documented domain
(`0 ≤ p ≤ 100`, indices in range) the defaults are never used. -/
def percentile (sorted_data : List ℚ) (p : ℚ) : ℚ :=
  let n := sorted_data.length
  if n = 0 then 0
  else
    let idx : ℚ := (p / 100) * ((n : ℚ) - 1)
    let lo : ℤ := pyInt idx
    let hi : ℤ := lo + 1
    let frac : ℚ := idx - (lo : ℚ)
    if (n : ℤ) ≤ hi then sorted_data.getLastD 0
    else sorted_data.getD lo.toNat 0 * (1 - frac) + sorted_data.getD hi.toNat 0 * frac

/-- Modelled from the spec: the linear-interpolation definition of the
percentile, with `lo = ⌊idx⌋` (mathematical floor), as stated in §4.3. -/
def percentileSpec (sorted_data : List ℚ) (p : ℚ) : ℚ :=
  let n := sorted_data.length
  if n = 0 then 0
  else
    let idx : ℚ := (p / 100) * ((n : ℚ) - 1)
    let lo : ℤ := ⌊idx⌋
    let hi : ℤ := lo + 1
    let frac : ℚ := idx - (lo : ℚ)
    if (n : ℤ) ≤ hi then sorted_data.getLastD 0
    else sorted_data.getD lo.toNat 0 * (1 - frac) + sorted_data.getD hi.toNat 0 * frac

lemma pyInt_eq_floor_of_nonneg {x : ℚ} (hx : 0 ≤ x) : pyInt x = ⌊x⌋ := by
  unfold pyInt
  rw [if_neg (not_lt.mpr hx)]

/-! ## Response-time histogram (`summary.py::SummaryView._response_time_histogram`)

The source builds six `{label, max, count}` buckets and, for each time value,
increments the first bucket whose `max` is `None` or strictly greater than the
value (`t < b['max']`), then `break`s.  The ORM query keeps only rows with
`time_taken` non-null and `time_taken >= 0`; a row is modelled as
`Option ℚ` (`none` = SQL NULL). -/

/-- The fixed bucket bounds with zeroed counts, in source order. -/
def histInit : List (Option ℚ × Nat) :=
  [(some 50, 0), (some 100, 0), (some 200, 0), (some 500, 0), (some 1000, 0), (none, 0)]

/-- One iteration of the inner `for b in buckets: if ...: b['count'] += 1; break`. -/
def bump (t : ℚ) : List (Option ℚ × Nat) → List (Option ℚ × Nat)
  | [] => []
  | (b, c) :: rest =>
    match b with
    | none => (none, c + 1) :: rest
    | some m => if t < m then (some m, c + 1) :: rest else (some m, c) :: bump t rest

/-- Embedding of `_response_time_histogram`: the list of the six bucket counts. -/
def respTimeHistogram (rows : List (Option ℚ)) : List Nat :=
  let times := (rows.filterMap id).filter (fun t => 0 ≤ t)
  (times.foldl (fun bs t => bump t bs) histInit).map Prod.snd

/-- Modelled from the spec: "each sample falls into the first bucket whose
bound it is strictly less than (the unbounded bucket catches the remainder)";
returns the index of that bucket in the fixed boundary list 50, 100, 200,
500, 1000, unbounded. -/
def rtBucketSpec (t : ℚ) : Nat :=
  if t < 50 then 0 else if t < 100 then 1 else if t < 200 then 2
  else if t < 500 then 3 else if t < 1000 then 4 else 5

lemma bump_concrete (t : ℚ) (c0 c1 c2 c3 c4 c5 : Nat) :
    bump t [(some 50, c0), (some 100, c1), (some 200, c2),
            (some 500, c3), (some 1000, c4), (none, c5)] =
      [(some 50, if rtBucketSpec t = 0 then c0 + 1 else c0),
       (some 100, if rtBucketSpec t = 1 then c1 + 1 else c1),
       (some 200, if rtBucketSpec t = 2 then c2 + 1 else c2),
       (some 500, if rtBucketSpec t = 3 then c3 + 1 else c3),
       (some 1000, if rtBucketSpec t = 4 then c4 + 1 else c4),
       (none, if rtBucketSpec t = 5 then c5 + 1 else c5)] := by
  simp only [bump, rtBucketSpec]
  split_ifs <;> simp_all

lemma hist_fold_general (times : List ℚ) (c0 c1 c2 c3 c4 c5 : Nat) :
    times.foldl (fun bs t => bump t bs)
        [(some 50, c0), (some 100, c1), (some 200, c2),
         (some 500, c3), (some 1000, c4), (none, c5)] =
      [(some 50, c0 + times.countP (fun t => rtBucketSpec t = 0)),
       (some 100, c1 + times.countP (fun t => rtBucketSpec t = 1)),
       (some 200, c2 + times.countP (fun t => rtBucketSpec t = 2)),
       (some 500, c3 + times.countP (fun t => rtBucketSpec t = 3)),
       (some 1000, c4 + times.countP (fun t => rtBucketSpec t = 4)),
       (none, c5 + times.countP (fun t => rtBucketSpec t = 5))] := by
  induction times generalizing c0 c1 c2 c3 c4 c5 with
  | nil => simp
  | cons t ts ih =>
    rw [List.foldl_cons, bump_concrete, ih]
    simp only [List.countP_cons, List.cons.injEq, Prod.mk.injEq, true_and, and_true]
    refine ⟨?_, ?_, ?_, ?_, ?_, ?_⟩ <;> (split_ifs <;> simp_all <;> omega)

/-! ## Status distribution (`summary.py::SummaryView._status_distribution`)

The source fetches the responses whose `request_id` is among the filtered
requests' pks and whose `status_code` is non-null (the grouping by
`status_code` with `Count('id')` followed by adding `row['count']` per class
is collapsed to counting responses directly), then buckets them with
`200 <= sc < 300 → 2xx`, `300 <= sc < 400 → 3xx`, `400 <= sc < 500 → 4xx`,
`sc >= 500 → 5xx`.  An empty request set short-circuits to the all-zero
four-bucket mapping. -/

/-- A `Response` record: owning request pk and nullable `status_code`. -/
structure RespRec where
  request_id : Nat
  status_code : Option ℤ
deriving DecidableEq

/-- The fixed four-bucket mapping `{'2xx': _, '3xx': _, '4xx': _, '5xx': _}`. -/
structure StatusBuckets where
  s2 : Nat
  s3 : Nat
  s4 : Nat
  s5 : Nat
deriving DecidableEq

/-- One `for row in rows` iteration of `_status_distribution`. -/
def statusBump (b : StatusBuckets) (sc : ℤ) : StatusBuckets :=
  if 200 ≤ sc ∧ sc < 300 then { b with s2 := b.s2 + 1 }
  else if 300 ≤ sc ∧ sc < 400 then { b with s3 := b.s3 + 1 }
  else if 400 ≤ sc ∧ sc < 500 then { b with s4 := b.s4 + 1 }
  else if 500 ≤ sc then { b with s5 := b.s5 + 1 }
  else b

/-- The non-null status codes of the responses associated with the given
request pks (the ORM filter `request_id__in=request_pks,
status_code__isnull=False`). -/
def associatedStatuses (request_pks : List Nat) (responses : List RespRec) : List ℤ :=
  responses.filterMap (fun r => if r.request_id ∈ request_pks then r.status_code else none)

/-- Embedding of `_status_distribution(filters)`. -/
def statusDistribution (request_pks : List Nat) (responses : List RespRec) : StatusBuckets :=
  if request_pks = [] then ⟨0, 0, 0, 0⟩
  else (associatedStatuses request_pks responses).foldl statusBump ⟨0, 0, 0, 0⟩

/-- Formalisation of the claim's bucketing rule, modelled from the spec:
each non-null associated response is counted "into the one of the four fixed
buckets determined by the first digit of its status class", and into no
bucket otherwise never (i.e. the bucket totals exhaust the non-null
responses). -/
def statusClaimHolds (request_pks : List Nat) (responses : List RespRec) : Prop :=
  let d := statusDistribution request_pks responses
  let scs := associatedStatuses request_pks responses
  d.s2 = scs.countP (fun sc => sc / 100 = 2) ∧
  d.s3 = scs.countP (fun sc => sc / 100 = 3) ∧
  d.s4 = scs.countP (fun sc => sc / 100 = 4) ∧
  d.s5 = scs.countP (fun sc => sc / 100 = 5) ∧
  d.s2 + d.s3 + d.s4 + d.s5 = scs.length

instance (pks : List Nat) (rs : List RespRec) : Decidable (statusClaimHolds pks rs) := by
  unfold statusClaimHolds
  exact instDecidableAnd

lemma status_fold_general (scs : List ℤ) (b : StatusBuckets) :
    (scs.foldl statusBump b) =
      ⟨b.s2 + scs.countP (fun sc => 200 ≤ sc ∧ sc < 300),
       b.s3 + scs.countP (fun sc => 300 ≤ sc ∧ sc < 400),
       b.s4 + scs.countP (fun sc => 400 ≤ sc ∧ sc < 500),
       b.s5 + scs.countP (fun sc => 500 ≤ sc)⟩ := by
  induction scs generalizing b with
  | nil => simp
  | cons sc rest ih =>
    rw [List.foldl_cons, ih]
    simp only [List.countP_cons, statusBump, decide_eq_true_eq]
    obtain ⟨b2, b3, b4, b5⟩ := b
    split_ifs <;> simp_all <;> omega

lemma rtBucketSpec_le_five (t : ℚ) : rtBucketSpec t ≤ 5 := by
  unfold rtBucketSpec
  split_ifs <;> omega

lemma bucket_indicator_sum (t : ℚ) :
    ((if rtBucketSpec t = 0 then 1 else 0) + (if rtBucketSpec t = 1 then 1 else 0)
      + (if rtBucketSpec t = 2 then 1 else 0) + (if rtBucketSpec t = 3 then 1 else 0)
      + (if rtBucketSpec t = 4 then 1 else 0) + (if rtBucketSpec t = 5 then 1 else 0) : Nat)
      = 1 := by
  have h := rtBucketSpec_le_five t
  set k := rtBucketSpec t with hk
  interval_cases k <;> simp

/-! ## SQL fingerprinting (`silk/utils/n_plus_one.py::fingerprint_query`)

`fingerprint_query` applies three regex substitutions and normalisations:
`re.sub(r"'[^']*'", '?')`, `re.sub(r'\b\d+\b', '?')`, `re.sub(r'\s+', ' ')`,
then `.strip().lower()`.  Each substitution is embedded as a left-to-right
scan matching the regex engine's behaviour; `str.lower` and `\s`/`\w` are
modelled on the ASCII range. -/

/-- Python word characters (`\w`), ASCII range: letters, digits, underscore. -/
def isWordChar (c : Char) : Bool := c.isAlpha || c.isDigit || c = '_'

/-- Python whitespace (`\s`), ASCII range. -/
def isSpaceChar (c : Char) : Bool :=
  c = ' ' || c = '\t' || c = '\n' || c = '\r' || c = '\x0b' || c = '\x0c'

/-- Python `str.lower` on one ASCII char. -/
def lowerChar (c : Char) : Char :=
  if 'A' ≤ c ∧ c ≤ 'Z' then Char.ofNat (c.toNat + 32) else c

/-- `re.sub(r"'[^']*'", '?', s)`, scanning left to right: each span from a
`'` to the next `'` becomes one `?`; a final quote with no closing partner
matches nothing and is kept verbatim.  The state holds (reversed) the chars
consumed since an as-yet-unclosed opening quote, to restore them at end of
input. -/
def rsLoop : List Char → Option (List Char) → List Char
  | [], none => []
  | [], some pend => pend.reverse
  | c :: rest, none =>
    if c = '\'' then rsLoop rest (some [c]) else c :: rsLoop rest none
  | c :: rest, some pend =>
    if c = '\'' then '?' :: rsLoop rest none else rsLoop rest (some (c :: pend))

/-- `_RE_STRINGS.sub('?', sql)`. -/
def replaceStrings (l : List Char) : List Char := rsLoop l none

/-- `re.sub(r'\b\d+\b', '?', s)`: replace each standalone digit run by `?`.
`prevW` records whether the previous original char is a word char (a match
cannot start after one, there being no boundary); `run` holds (reversed) a
candidate digit run whose trailing boundary is not yet decided: at a word
char the run was no match and is emitted verbatim, otherwise it collapses to
`?`. -/
def rnLoop : List Char → Bool → List Char → List Char
  | [], _, run => if run.isEmpty then [] else ['?']
  | c :: rest, prevW, run =>
    if run.isEmpty then
      if c.isDigit && !prevW then rnLoop rest prevW [c]
      else c :: rnLoop rest (isWordChar c) []
    else
      if c.isDigit then rnLoop rest prevW (c :: run)
      else if isWordChar c then run.reverse ++ c :: rnLoop rest true []
      else '?' :: c :: rnLoop rest false []

/-- `_RE_NUMBERS.sub('?', s)`. -/
def replaceNumbers (l : List Char) : List Char := rnLoop l false []

/-- `re.sub(r'\s+', ' ', s)`: collapse each whitespace run to a single
space.  `inWS` is whether the previous char was whitespace (its single space
already emitted). -/
def cwLoop : List Char → Bool → List Char
  | [], _ => []
  | c :: rest, inWS =>
    if isSpaceChar c then
      if inWS then cwLoop rest true else ' ' :: cwLoop rest true
    else c :: cwLoop rest false

/-- `_RE_WHITESPACE.sub(' ', s)`. -/
def collapseWhitespace (l : List Char) : List Char := cwLoop l false

/-- Python `str.strip()` (ASCII whitespace). -/
def pyStrip (l : List Char) : List Char :=
  ((l.dropWhile isSpaceChar).reverse.dropWhile isSpaceChar).reverse

/-- Embedding of `fingerprint_query(sql)`. -/
def fingerprint_query (sql : List Char) : List Char :=
  (pyStrip (collapseWhitespace (replaceNumbers (replaceStrings sql)))).map lowerChar

/-! ### Character-class lemmas for the fingerprint pipeline

`Char` comparisons are definitionally comparisons of the underlying code
points, so the character classes reduce to `Nat` interval facts. -/

lemma char_eq_iff_toNat {a b : Char} : a = b ↔ a.toNat = b.toNat := by
  constructor
  · intro h
    rw [h]
  · intro h
    apply Char.ext
    apply UInt32.eq_of_toBitVec_eq
    exact BitVec.eq_of_toNat_eq h

lemma toNat_ofNat_valid {n : Nat} (h : n.isValidChar) : (Char.ofNat n).toNat = n := by
  unfold Char.ofNat
  rw [dif_pos h]
  unfold Char.ofNatAux Char.toNat
  simp [UInt32.toNat, BitVec.toNat_ofNatLt]

lemma upper_toNat_bounds {c : Char} (h : 'A' ≤ c ∧ c ≤ 'Z') :
    65 ≤ c.toNat ∧ c.toNat ≤ 90 := ⟨h.1, h.2⟩

lemma toNat_lowerChar_of_upper {c : Char} (h : 'A' ≤ c ∧ c ≤ 'Z') :
    (lowerChar c).toNat = c.toNat + 32 := by
  unfold lowerChar
  rw [if_pos h]
  apply toNat_ofNat_valid
  have h2 : c.toNat ≤ 90 := h.2
  exact Or.inl (by omega)

lemma lowerChar_of_not_upper {c : Char} (h : ¬('A' ≤ c ∧ c ≤ 'Z')) :
    lowerChar c = c := if_neg h

lemma not_upper_toNat {c : Char} (h : ¬('A' ≤ c ∧ c ≤ 'Z')) :
    ¬(65 ≤ c.toNat ∧ c.toNat ≤ 90) := by
  intro hc
  exact h ⟨hc.1, hc.2⟩

lemma isDigit_iff (c : Char) :
    c.isDigit = true ↔ 48 ≤ c.toNat ∧ c.toNat ≤ 57 := by
  unfold Char.isDigit
  rw [Bool.and_eq_true, decide_eq_true_eq, decide_eq_true_eq]
  exact Iff.rfl

lemma isWordChar_iff (c : Char) :
    isWordChar c = true ↔
      (((65 ≤ c.toNat ∧ c.toNat ≤ 90) ∨ (97 ≤ c.toNat ∧ c.toNat ≤ 122)) ∨
        (48 ≤ c.toNat ∧ c.toNat ≤ 57)) ∨ c.toNat = 95 := by
  unfold isWordChar Char.isAlpha Char.isUpper Char.isLower Char.isDigit
  simp only [Bool.or_eq_true, Bool.and_eq_true, decide_eq_true_eq, char_eq_iff_toNat]
  exact Iff.rfl

lemma isSpaceChar_iff (c : Char) :
    isSpaceChar c = true ↔
      ((((c.toNat = 32 ∨ c.toNat = 9) ∨ c.toNat = 10) ∨ c.toNat = 13) ∨
        c.toNat = 11) ∨ c.toNat = 12 := by
  unfold isSpaceChar
  simp only [Bool.or_eq_true, decide_eq_true_eq, char_eq_iff_toNat]
  exact Iff.rfl

lemma quote_toNat : ('\'').toNat = 39 := rfl

lemma isDigit_isWordChar {c : Char} (h : c.isDigit = true) : isWordChar c = true := by
  rw [isDigit_iff] at h
  rw [isWordChar_iff]
  omega

lemma isSpaceChar_not_word {c : Char} (h : isSpaceChar c = true) :
    isWordChar c = false := by
  rw [isSpaceChar_iff] at h
  rw [← Bool.not_eq_true, isWordChar_iff]
  omega

lemma not_word_not_digit {c : Char} (h : isWordChar c = false) :
    c.isDigit = false := by
  rw [← Bool.not_eq_true, isDigit_iff]
  rw [← Bool.not_eq_true, isWordChar_iff] at h
  omega

lemma isDigit_ne_quote {c : Char} (h : c.isDigit = true) : c ≠ '\'' := by
  rw [isDigit_iff] at h
  rw [Ne, char_eq_iff_toNat, quote_toNat]
  omega

lemma isDigit_lowerChar (c : Char) : (lowerChar c).isDigit = c.isDigit := by
  by_cases h : 'A' ≤ c ∧ c ≤ 'Z'
  · have hl := toNat_lowerChar_of_upper h
    have hb := upper_toNat_bounds h
    rw [Bool.eq_iff_iff, isDigit_iff, isDigit_iff]
    omega
  · rw [lowerChar_of_not_upper h]

lemma isWordChar_lowerChar (c : Char) : isWordChar (lowerChar c) = isWordChar c := by
  by_cases h : 'A' ≤ c ∧ c ≤ 'Z'
  · have hl := toNat_lowerChar_of_upper h
    have hb := upper_toNat_bounds h
    rw [Bool.eq_iff_iff, isWordChar_iff, isWordChar_iff]
    omega
  · rw [lowerChar_of_not_upper h]

lemma isSpaceChar_lowerChar (c : Char) : isSpaceChar (lowerChar c) = isSpaceChar c := by
  by_cases h : 'A' ≤ c ∧ c ≤ 'Z'
  · have hl := toNat_lowerChar_of_upper h
    have hb := upper_toNat_bounds h
    rw [Bool.eq_iff_iff, isSpaceChar_iff, isSpaceChar_iff]
    omega
  · rw [lowerChar_of_not_upper h]

lemma lowerChar_eq_quote_iff (c : Char) : lowerChar c = '\'' ↔ c = '\'' := by
  by_cases h : 'A' ≤ c ∧ c ≤ 'Z'
  · have hl := toNat_lowerChar_of_upper h
    have hb := upper_toNat_bounds h
    rw [char_eq_iff_toNat, char_eq_iff_toNat, quote_toNat]
    omega
  · rw [lowerChar_of_not_upper h]

/-! ### Lemmas about the string-literal substitution (`rsLoop`) -/

lemma rsLoop_nil_none : rsLoop [] none = [] := rfl

lemma rsLoop_nil_some (pend : List Char) : rsLoop [] (some pend) = pend.reverse := rfl

lemma rsLoop_cons_none (c : Char) (rest : List Char) :
    rsLoop (c :: rest) none =
      if c = '\'' then rsLoop rest (some [c]) else c :: rsLoop rest none := rfl

lemma rsLoop_cons_some (c : Char) (rest pend : List Char) :
    rsLoop (c :: rest) (some pend) =
      if c = '\'' then '?' :: rsLoop rest none else rsLoop rest (some (c :: pend)) := rfl

lemma rsLoop_no_quote {l : List Char} (h : '\'' ∉ l) : rsLoop l none = l := by
  induction l with
  | nil => rfl
  | cons c rest ih =>
    rw [rsLoop_cons_none,
      if_neg (fun hc : c = '\'' => h (hc ▸ List.mem_cons_self c rest)),
      ih (fun hm => h (List.mem_cons_of_mem c hm))]

lemma rsLoop_append (p : List Char) :
    ∀ r : List Char,
      (Even (List.count '\'' p) →
        rsLoop (p ++ r) none = rsLoop p none ++ rsLoop r none) ∧
      (∀ pend, Odd (List.count '\'' p) →
        rsLoop (p ++ r) (some pend) = rsLoop p (some pend) ++ rsLoop r none) := by
  induction p with
  | nil =>
    intro r
    refine ⟨fun _ => rfl, fun pend hodd => absurd hodd (by simp)⟩
  | cons c p ih =>
    intro r
    constructor
    · intro heven
      by_cases hc : c = '\''
      · subst hc
        rw [List.count_cons_self] at heven
        have hodd : Odd (List.count '\'' p) :=
          Nat.odd_iff_not_even.mpr (Nat.even_add_one.mp heven)
        rw [List.cons_append, rsLoop_cons_none, rsLoop_cons_none, if_pos rfl,
          if_pos rfl]
        exact (ih r).2 ['\''] hodd
      · rw [List.count_cons_of_ne (fun h : '\'' = c => hc h.symm)] at heven
        rw [List.cons_append, rsLoop_cons_none, rsLoop_cons_none, if_neg hc,
          if_neg hc, List.cons_append, (ih r).1 heven]
    · intro pend hodd
      by_cases hc : c = '\''
      · subst hc
        rw [List.count_cons_self] at hodd
        have heven : Even (List.count '\'' p) :=
          Nat.even_iff_not_odd.mpr (Nat.odd_add_one.mp hodd)
        rw [List.cons_append, rsLoop_cons_some, rsLoop_cons_some, if_pos rfl,
          if_pos rfl, List.cons_append, (ih r).1 heven]
      · rw [List.count_cons_of_ne (fun h : '\'' = c => hc h.symm)] at hodd
        rw [List.cons_append, rsLoop_cons_some, rsLoop_cons_some, if_neg hc,
          if_neg hc]
        exact (ih r).2 (c :: pend) hodd

lemma rsLoop_append_even {p r : List Char} (h : Even (List.count '\'' p)) :
    rsLoop (p ++ r) none = rsLoop p none ++ rsLoop r none :=
  (rsLoop_append p r).1 h

lemma rsLoop_literal {a : List Char} (ha : '\'' ∉ a) (q : List Char)
    (pend : List Char) :
    rsLoop (a ++ '\'' :: q) (some pend) = '?' :: rsLoop q none := by
  induction a generalizing pend with
  | nil =>
    rw [List.nil_append, rsLoop_cons_some, if_pos rfl]
  | cons c a ih =>
    have hc : c ≠ '\'' := fun h => ha (h ▸ List.mem_cons_self c a)
    rw [List.cons_append, rsLoop_cons_some, if_neg hc]
    exact ih (fun hm => ha (List.mem_cons_of_mem c hm)) _

lemma rsLoop_some_cases (rest : List Char) :
    ∀ pend, (∃ after : List Char, rsLoop rest (some pend) = '?' :: rsLoop after none) ∨
      rsLoop rest (some pend) = pend.reverse ++ rest := by
  induction rest with
  | nil =>
    intro pend
    right
    rw [rsLoop_nil_some, List.append_nil]
  | cons c rest ih =>
    intro pend
    by_cases hc : c = '\''
    · subst hc
      left
      exact ⟨rest, by rw [rsLoop_cons_some, if_pos rfl]⟩
    · rcases ih (c :: pend) with ⟨after, hafter⟩ | heq
      · left
        exact ⟨after, by rw [rsLoop_cons_some, if_neg hc]; exact hafter⟩
      · right
        rw [rsLoop_cons_some, if_neg hc, heq, List.reverse_cons, List.append_assoc,
          List.singleton_append]

lemma rsLoop_head_cases (qc : Char) (qtl : List Char) :
    ∃ c' rest', rsLoop (qc :: qtl) none = c' :: rest' ∧ (c' = qc ∨ c' = '?') := by
  by_cases hc : qc = '\''
  · subst hc
    rcases rsLoop_some_cases qtl ['\''] with ⟨after, hafter⟩ | heq
    · exact ⟨'?', rsLoop after none,
        by rw [rsLoop_cons_none, if_pos rfl]; exact hafter, Or.inr rfl⟩
    · exact ⟨'\'', qtl,
        by rw [rsLoop_cons_none, if_pos rfl]; exact heq, Or.inl rfl⟩
  · exact ⟨qc, rsLoop qtl none, by rw [rsLoop_cons_none, if_neg hc], Or.inl rfl⟩

lemma count_quote_eq_zero_of_all_digit {d : List Char}
    (hd : ∀ c ∈ d, c.isDigit = true) : List.count '\'' d = 0 := by
  rw [List.count_eq_zero]
  intro hmem
  exact isDigit_ne_quote (hd _ hmem) rfl

lemma rsLoop_concat_last {p : List Char} {c : Char}
    (heven : Even (List.count '\'' (p ++ [c]))) (hc : c ≠ '\'') :
    rsLoop (p ++ [c]) none = rsLoop p none ++ [c] := by
  have hc' : List.count '\'' [c] = 0 := by
    rw [List.count_eq_zero]
    simp [Ne.symm hc]
  have hp : Even (List.count '\'' p) := by
    rwa [List.count_append, hc', Nat.add_zero] at heven
  rw [rsLoop_append_even hp]
  congr 1
  exact rsLoop_no_quote (by simp [Ne.symm hc])

/-! ### Lemmas about the number substitution (`rnLoop`) -/

lemma rnLoop_nil (b : Bool) (run : List Char) :
    rnLoop [] b run = if run.isEmpty then [] else ['?'] := rfl

lemma rnLoop_cons (c : Char) (rest : List Char) (b : Bool) (run : List Char) :
    rnLoop (c :: rest) b run =
      if run.isEmpty then
        if c.isDigit && !b then rnLoop rest b [c]
        else c :: rnLoop rest (isWordChar c) []
      else
        if c.isDigit then rnLoop rest b (c :: run)
        else if isWordChar c then run.reverse ++ c :: rnLoop rest true []
        else '?' :: c :: rnLoop rest false [] := rfl

lemma rnLoop_append_nonword (u : List Char) :
    ∀ (b : Bool) (run : List Char) (zc : Char) (ztl : List Char),
      isWordChar zc = false →
      rnLoop (u ++ zc :: ztl) b run = rnLoop u b run ++ rnLoop (zc :: ztl) false [] := by
  induction u with
  | nil =>
    intro b run zc ztl hz
    have hzd : zc.isDigit = false := not_word_not_digit hz
    by_cases hrun : run.isEmpty
    · simp [rnLoop_nil, rnLoop_cons, hrun, hz, hzd]
    · simp [rnLoop_nil, rnLoop_cons, hrun, hz, hzd]
  | cons c u ih =>
    intro b run zc ztl hz
    rw [List.cons_append, rnLoop_cons, rnLoop_cons]
    by_cases hrun : run.isEmpty
    · rw [if_pos hrun, if_pos hrun]
      by_cases hcd : c.isDigit && !b
      · rw [if_pos hcd, if_pos hcd]
        exact ih b [c] zc ztl hz
      · rw [if_neg hcd, if_neg hcd, List.cons_append]
        rw [ih (isWordChar c) [] zc ztl hz]
    · rw [if_neg hrun, if_neg hrun]
      by_cases hcd : c.isDigit = true
      · rw [if_pos hcd, if_pos hcd]
        exact ih b (c :: run) zc ztl hz
      · rw [if_neg hcd, if_neg hcd]
        by_cases hcw : isWordChar c = true
        · rw [if_pos hcw, if_pos hcw, List.append_assoc, List.cons_append]
          rw [ih true [] zc ztl hz]
        · rw [if_neg hcw, if_neg hcw, List.cons_append, List.cons_append]
          rw [ih false [] zc ztl hz]

lemma rnLoop_digit_run_aux (d : List Char) :
    ∀ (b : Bool) (run : List Char) (v : List Char),
      (∀ c ∈ d, c.isDigit = true) → run ≠ [] →
      (v = [] ∨ ∃ vc vtl, v = vc :: vtl ∧ isWordChar vc = false) →
      rnLoop (d ++ v) b run = '?' :: rnLoop v false [] := by
  induction d with
  | nil =>
    intro b run v _ hrun hv
    have hrun' : run.isEmpty = false := by
      cases run with
      | nil => exact absurd rfl hrun
      | cons x xs => rfl
    rcases hv with rfl | ⟨vc, vtl, rfl, hvw⟩
    · rw [List.nil_append, rnLoop_nil, hrun']
      rfl
    · have hvd : vc.isDigit = false := not_word_not_digit hvw
      rw [List.nil_append, rnLoop_cons, hrun']
      simp only [Bool.false_eq_true, if_false, hvd, hvw]
      rw [rnLoop_cons]
      simp only [List.isEmpty_nil, if_true, hvd, Bool.false_and,
        Bool.false_eq_true, if_false, hvw]
  | cons c d ih =>
    intro b run v hd hrun hv
    have hcd : c.isDigit = true := hd c (List.mem_cons_self c d)
    rw [List.cons_append, rnLoop_cons]
    have hrun' : run.isEmpty = false := by
      cases run with
      | nil => exact absurd rfl hrun
      | cons x xs => rfl
    rw [hrun']
    simp only [Bool.false_eq_true, if_false, hcd, if_true]
    exact ih b (c :: run) v (fun x hx => hd x (List.mem_cons_of_mem c hx))
      (List.cons_ne_nil c run) hv

lemma rnLoop_digit_run (d v : List Char)
    (hne : d ≠ []) (hd : ∀ c ∈ d, c.isDigit = true)
    (hv : v = [] ∨ ∃ vc vtl, v = vc :: vtl ∧ isWordChar vc = false) :
    rnLoop (d ++ v) false [] = '?' :: rnLoop v false [] := by
  cases d with
  | nil => exact absurd rfl hne
  | cons c d =>
    have hcd : c.isDigit = true := hd c (List.mem_cons_self c d)
    rw [List.cons_append, rnLoop_cons]
    simp only [List.isEmpty_nil, if_true, hcd, Bool.not_false, Bool.and_true,
      if_true]
    exact rnLoop_digit_run_aux d false [c] v
      (fun x hx => hd x (List.mem_cons_of_mem c hx)) (List.cons_ne_nil c [])
      hv

lemma rnLoop_space_run (w : List Char) :
    ∀ (v : List Char) (e : Bool), (∀ c ∈ w, isSpaceChar c = true) →
      rnLoop (w ++ v) e [] = w ++ rnLoop v (if w.isEmpty then e else false) [] := by
  induction w with
  | nil =>
    intro v e _
    rfl
  | cons c w ih =>
    intro v e hw
    have hcs : isSpaceChar c = true := hw c (List.mem_cons_self c w)
    have hcw : isWordChar c = false := isSpaceChar_not_word hcs
    have hcd : c.isDigit = false := not_word_not_digit hcw
    rw [List.cons_append, rnLoop_cons]
    simp only [List.isEmpty_nil, if_true, hcd, Bool.false_and,
      Bool.false_eq_true, if_false, hcw]
    rw [ih v false (fun x hx => hw x (List.mem_cons_of_mem c hx))]
    simp [List.cons_append]

lemma rnLoop_word_run (a : List Char) :
    ∀ (v : List Char) (b : Bool),
      (∀ c ∈ a, isWordChar c = true ∧ c.isDigit = false) →
      rnLoop (a ++ v) b [] = a ++ rnLoop v (if a.isEmpty then b else true) [] := by
  induction a with
  | nil =>
    intro v b _
    rfl
  | cons c a ih =>
    intro v b ha
    have hcw : isWordChar c = true := (ha c (List.mem_cons_self c a)).1
    have hcd : c.isDigit = false := (ha c (List.mem_cons_self c a)).2
    rw [List.cons_append, rnLoop_cons]
    simp only [List.isEmpty_nil, if_true, hcd, Bool.false_and,
      Bool.false_eq_true, if_false, hcw]
    rw [ih v true (fun x hx => ha x (List.mem_cons_of_mem c hx))]
    simp [List.cons_append]

/-! ### Lemmas about whitespace collapsing (`cwLoop`) and `pyStrip` -/

/-- The `inWS` state of `cwLoop` after consuming a list. -/
def wsState (s : Bool) : List Char → Bool
  | [] => s
  | c :: x => wsState (isSpaceChar c) x

lemma cwLoop_cons (c : Char) (rest : List Char) (s : Bool) :
    cwLoop (c :: rest) s =
      if isSpaceChar c then
        (if s then cwLoop rest true else ' ' :: cwLoop rest true)
      else c :: cwLoop rest false := rfl

lemma cwLoop_append (x : List Char) :
    ∀ (z : List Char) (s : Bool),
      cwLoop (x ++ z) s = cwLoop x s ++ cwLoop z (wsState s x) := by
  induction x with
  | nil => intro z s; rfl
  | cons c x ih =>
    intro z s
    rw [List.cons_append, cwLoop_cons, cwLoop_cons]
    have hws : wsState s (c :: x) = wsState (isSpaceChar c) x := rfl
    rw [hws]
    by_cases hc : isSpaceChar c = true
    · rw [if_pos hc, if_pos hc, hc]
      by_cases hs : s = true
      · rw [if_pos hs, if_pos hs, ih]
      · rw [if_neg hs, if_neg hs, List.cons_append, ih]
    · rw [if_neg hc, if_neg hc, List.cons_append, ih]
      have hcf : isSpaceChar c = false := by simpa using hc
      rw [hcf]

lemma cwLoop_space_run (w : List Char) :
    ∀ (B : List Char) (s : Bool), w ≠ [] → (∀ c ∈ w, isSpaceChar c = true) →
      cwLoop (w ++ B) s = (if s then [] else [' ']) ++ cwLoop B true := by
  induction w with
  | nil => intro B s hne _; exact absurd rfl hne
  | cons c w ih =>
    intro B s _ hw
    have hc : isSpaceChar c = true := hw c (List.mem_cons_self c w)
    rw [List.cons_append, cwLoop_cons, if_pos hc]
    by_cases hw' : w = []
    · subst hw'
      by_cases hs : s
      · rw [if_pos hs, if_pos hs, List.nil_append, List.nil_append]
      · rw [if_neg hs, if_neg hs, List.nil_append]
        rfl
    · have hrec := ih B true hw' (fun x hx => hw x (List.mem_cons_of_mem c hx))
      by_cases hs : s
      · rw [if_pos hs, if_pos hs, hrec, List.nil_append, if_pos rfl,
          List.nil_append]
      · rw [if_neg hs, if_neg hs, hrec, if_pos rfl, List.nil_append]
        rfl

lemma cwLoop_no_space (seg : List Char) :
    ∀ (W : List Char) (s : Bool), (∀ c ∈ seg, isSpaceChar c = false) →
      cwLoop (seg ++ W) s =
        seg ++ cwLoop W (if seg.isEmpty then s else false) := by
  induction seg with
  | nil => intro W s _; rfl
  | cons c seg ih =>
    intro W s hsp
    have hc : isSpaceChar c = false := hsp c (List.mem_cons_self c seg)
    rw [List.cons_append, cwLoop_cons]
    simp only [hc, Bool.false_eq_true, if_false]
    rw [ih W false (fun x hx => hsp x (List.mem_cons_of_mem c hx))]
    simp

lemma cwLoop_ws_invariant (A B w w' : List Char)
    (hw : w ≠ [] ∧ ∀ c ∈ w, isSpaceChar c = true)
    (hw' : w' ≠ [] ∧ ∀ c ∈ w', isSpaceChar c = true) :
    cwLoop (A ++ w ++ B) false = cwLoop (A ++ w' ++ B) false := by
  rw [List.append_assoc, List.append_assoc,
    cwLoop_append A (w ++ B) false, cwLoop_append A (w' ++ B) false,
    cwLoop_space_run w B _ hw.1 hw.2, cwLoop_space_run w' B _ hw'.1 hw'.2]

lemma dropWhile_infix {seg l : List Char} {p : Char → Bool}
    (hne : seg ≠ []) (hsp : ∀ c ∈ seg, p c = false) (h : seg.IsInfix l) :
    seg.IsInfix (l.dropWhile p) := by
  obtain ⟨s, t, rfl⟩ := h
  have hseg : seg.dropWhile p = seg := by
    cases seg with
    | nil => rfl
    | cons c cs =>
      rw [List.dropWhile_cons,
        if_neg (by rw [hsp c (List.mem_cons_self c cs)]; exact Bool.false_ne_true)]
  rw [List.append_assoc, List.dropWhile_append]
  by_cases hs : (s.dropWhile p).isEmpty
  · rw [if_pos hs, List.dropWhile_append, hseg,
      if_neg (show ¬seg.isEmpty = true by simp [List.isEmpty_iff, hne])]
    exact ⟨[], t, by simp⟩
  · rw [if_neg hs]
    exact ⟨s.dropWhile p, t, by rw [List.append_assoc]⟩

lemma infix_pyStrip {seg l : List Char}
    (hne : seg ≠ []) (hsp : ∀ c ∈ seg, isSpaceChar c = false)
    (h : seg.IsInfix l) : seg.IsInfix (pyStrip l) := by
  unfold pyStrip
  have h1 : seg.IsInfix (l.dropWhile isSpaceChar) := dropWhile_infix hne hsp h
  have h2 : seg.reverse.IsInfix (l.dropWhile isSpaceChar).reverse :=
    List.reverse_infix.mpr h1
  have h3 : seg.reverse.IsInfix
      ((l.dropWhile isSpaceChar).reverse.dropWhile isSpaceChar) :=
    dropWhile_infix (by simpa using hne)
      (fun c hc => hsp c (List.mem_reverse.mp hc)) h2
  have h4 := List.reverse_infix.mpr h3
  rwa [List.reverse_reverse] at h4

lemma isLower_iff (c : Char) :
    c.isLower = true ↔ 97 ≤ c.toNat ∧ c.toNat ≤ 122 := by
  unfold Char.isLower
  rw [Bool.and_eq_true, decide_eq_true_eq, decide_eq_true_eq]
  exact Iff.rfl

lemma lowerChar_eq_self_of_keeps {c : Char}
    (h : c.isLower = true ∨ c = '_' ∨ c = '"') : lowerChar c = c := by
  apply lowerChar_of_not_upper
  intro hup
  have hb := upper_toNat_bounds hup
  rcases h with h | rfl | rfl
  · have := (isLower_iff c).mp h
    omega
  · have h95 : ('_').toNat = 95 := rfl
    omega
  · have h34 : ('"').toNat = 34 := rfl
    omega

/-! ### Case-equivalence: the pipeline maps case-equivalent inputs to
case-equivalent outputs, and the final `.lower()` then coincides -/

/-- Two chars are case-equivalent when they lower-case to the same char. -/
def caseEq (a b : Char) : Prop := lowerChar a = lowerChar b

lemma caseEq_digit {a b : Char} (h : caseEq a b) : a.isDigit = b.isDigit := by
  rw [← isDigit_lowerChar a, h, isDigit_lowerChar]

lemma caseEq_word {a b : Char} (h : caseEq a b) : isWordChar a = isWordChar b := by
  rw [← isWordChar_lowerChar a, h, isWordChar_lowerChar]

lemma caseEq_space {a b : Char} (h : caseEq a b) : isSpaceChar a = isSpaceChar b := by
  rw [← isSpaceChar_lowerChar a, h, isSpaceChar_lowerChar]

lemma caseEq_quote {a b : Char} (h : caseEq a b) : a = '\'' ↔ b = '\'' := by
  rw [← lowerChar_eq_quote_iff a, h, lowerChar_eq_quote_iff b]

lemma caseEq_refl (a : Char) : caseEq a a := rfl

lemma rs_forall2 {x y : List Char} (hxy : List.Forall₂ caseEq x y) :
    (∀ p₁ p₂, List.Forall₂ caseEq p₁ p₂ →
      List.Forall₂ caseEq (rsLoop x (some p₁)) (rsLoop y (some p₂))) ∧
    List.Forall₂ caseEq (rsLoop x none) (rsLoop y none) := by
  induction hxy with
  | nil =>
    constructor
    · intro p₁ p₂ hp
      rw [rsLoop_nil_some, rsLoop_nil_some]
      exact List.rel_reverse hp
    · exact List.Forall₂.nil
  | cons hab htail ih =>
    rename_i a b x' y'
    constructor
    · intro p₁ p₂ hp
      rw [rsLoop_cons_some, rsLoop_cons_some]
      by_cases ha : a = '\''
      · rw [if_pos ha, if_pos ((caseEq_quote hab).mp ha)]
        exact List.Forall₂.cons (caseEq_refl '?') ih.2
      · rw [if_neg ha, if_neg (fun hb => ha ((caseEq_quote hab).mpr hb))]
        exact ih.1 (a :: p₁) (b :: p₂) (List.Forall₂.cons hab hp)
    · rw [rsLoop_cons_none, rsLoop_cons_none]
      by_cases ha : a = '\''
      · rw [if_pos ha, if_pos ((caseEq_quote hab).mp ha)]
        refine ih.1 [a] [b] (List.Forall₂.cons hab List.Forall₂.nil)
      · rw [if_neg ha, if_neg (fun hb => ha ((caseEq_quote hab).mpr hb))]
        exact List.Forall₂.cons hab ih.2

lemma rn_forall2 {x y : List Char} (hxy : List.Forall₂ caseEq x y) :
    ∀ (b : Bool) (r₁ r₂ : List Char), List.Forall₂ caseEq r₁ r₂ →
      List.Forall₂ caseEq (rnLoop x b r₁) (rnLoop y b r₂) := by
  induction hxy with
  | nil =>
    intro b r₁ r₂ hr
    rw [rnLoop_nil, rnLoop_nil]
    have hlen : r₁.length = r₂.length := hr.length_eq
    cases r₁ with
    | nil =>
      cases r₂ with
      | nil => exact List.Forall₂.nil
      | cons u v => simp at hlen
    | cons u v =>
      cases r₂ with
      | nil => simp at hlen
      | cons u' v' => exact List.Forall₂.cons (caseEq_refl '?') List.Forall₂.nil
  | cons hab htail ih =>
    rename_i a b' x' y'
    intro b r₁ r₂ hr
    rw [rnLoop_cons, rnLoop_cons]
    have hlen : r₁.length = r₂.length := hr.length_eq
    have hie : r₁.isEmpty = r₂.isEmpty := by
      cases r₁ <;> cases r₂ <;> simp_all
    have hdig : a.isDigit = b'.isDigit := caseEq_digit hab
    have hword : isWordChar a = isWordChar b' := caseEq_word hab
    rw [← hie, ← hdig, ← hword]
    by_cases hr₁ : r₁.isEmpty = true
    · rw [if_pos hr₁, if_pos hr₁]
      by_cases hd : (a.isDigit && !b) = true
      · rw [if_pos hd, if_pos hd]
        exact ih b [a] [b'] (List.Forall₂.cons hab List.Forall₂.nil)
      · rw [if_neg hd, if_neg hd]
        exact List.Forall₂.cons hab (ih (isWordChar a) [] [] List.Forall₂.nil)
    · rw [if_neg hr₁, if_neg hr₁]
      by_cases hd : a.isDigit = true
      · rw [if_pos hd, if_pos hd]
        exact ih b (a :: r₁) (b' :: r₂) (List.Forall₂.cons hab hr)
      · rw [if_neg hd, if_neg hd]
        by_cases hw : isWordChar a = true
        · rw [if_pos hw, if_pos hw]
          exact List.rel_append (List.rel_reverse hr)
            (List.Forall₂.cons hab (ih true [] [] List.Forall₂.nil))
        · rw [if_neg hw, if_neg hw]
          exact List.Forall₂.cons (caseEq_refl '?')
            (List.Forall₂.cons hab (ih false [] [] List.Forall₂.nil))

lemma cw_forall2 {x y : List Char} (hxy : List.Forall₂ caseEq x y) :
    ∀ s : Bool, List.Forall₂ caseEq (cwLoop x s) (cwLoop y s) := by
  induction hxy with
  | nil => intro s; exact List.Forall₂.nil
  | cons hab htail ih =>
    rename_i a b x' y'
    intro s
    rw [cwLoop_cons, cwLoop_cons, ← caseEq_space hab]
    by_cases hc : isSpaceChar a = true
    · rw [if_pos hc, if_pos hc]
      by_cases hs : s = true
      · rw [if_pos hs, if_pos hs]
        exact ih true
      · rw [if_neg hs, if_neg hs]
        exact List.Forall₂.cons (caseEq_refl ' ') (ih true)
    · rw [if_neg hc, if_neg hc]
      exact List.Forall₂.cons hab (ih false)

lemma dropWhile_forall2 {x y : List Char} (hxy : List.Forall₂ caseEq x y)
    {p : Char → Bool} (hcong : ∀ a b, caseEq a b → p a = p b) :
    List.Forall₂ caseEq (x.dropWhile p) (y.dropWhile p) := by
  induction hxy with
  | nil => exact List.Forall₂.nil
  | cons hab htail ih =>
    rename_i a b x' y'
    rw [List.dropWhile_cons, List.dropWhile_cons, ← hcong a b hab]
    by_cases hp : p a = true
    · rw [if_pos hp, if_pos hp]
      exact ih
    · rw [if_neg hp, if_neg hp]
      exact List.Forall₂.cons hab htail

lemma pyStrip_forall2 {x y : List Char} (hxy : List.Forall₂ caseEq x y) :
    List.Forall₂ caseEq (pyStrip x) (pyStrip y) := by
  unfold pyStrip
  exact List.rel_reverse (dropWhile_forall2
    (List.rel_reverse (dropWhile_forall2 hxy (fun a b h => caseEq_space h)))
    (fun a b h => caseEq_space h))

lemma map_lower_of_forall2 {x y : List Char} (hxy : List.Forall₂ caseEq x y) :
    x.map lowerChar = y.map lowerChar := by
  induction hxy with
  | nil => rfl
  | cons hab htail ih =>
    simp only [List.map_cons, ih]
    rw [hab]

/-- Case-equivalent inputs produce equal fingerprints. -/
lemma fingerprint_case_invariant {x y : List Char}
    (hxy : List.Forall₂ caseEq x y) :
    fingerprint_query x = fingerprint_query y := by
  unfold fingerprint_query replaceStrings replaceNumbers collapseWhitespace
  exact map_lower_of_forall2 (pyStrip_forall2 (cw_forall2
    (rn_forall2 (rs_forall2 hxy).2 false [] [] List.Forall₂.nil) false))

/-! ### The "differ only in literals / whitespace / case" relation and the
invariance of the fingerprint under it -/

/-- One elementary difference between two SQL texts that
`fingerprint_query` is claimed to erase: the contents of one single-quoted
string literal, the digits of one standalone integer literal, the amount
and kind of one whitespace run, or letter case throughout.  The side
conditions pin down the regex-level reading: the prefix contains an even
number of single quotes (the difference is not inside an unterminated
string literal), and an integer literal is standalone when delimited by
non-word characters or the ends of the text. -/
inductive LiteralDiff : List Char → List Char → Prop
  | strLit (p a b q : List Char) (hp : Even (List.count '\'' p))
      (ha : '\'' ∉ a) (hb : '\'' ∉ b) :
      LiteralDiff (p ++ '\'' :: a ++ '\'' :: q) (p ++ '\'' :: b ++ '\'' :: q)
  | intLit (p d₁ d₂ q : List Char) (hp : Even (List.count '\'' p))
      (hne₁ : d₁ ≠ []) (hd₁ : ∀ c ∈ d₁, c.isDigit = true)
      (hne₂ : d₂ ≠ []) (hd₂ : ∀ c ∈ d₂, c.isDigit = true)
      (hpl : p = [] ∨ ∃ p' c, p = p' ++ [c] ∧ isWordChar c = false ∧ c ≠ '\'')
      (hq : q = [] ∨ ∃ qc qtl, q = qc :: qtl ∧ isWordChar qc = false) :
      LiteralDiff (p ++ d₁ ++ q) (p ++ d₂ ++ q)
  | wsDiff (p w₁ w₂ q : List Char) (hp : Even (List.count '\'' p))
      (hne₁ : w₁ ≠ []) (hw₁ : ∀ c ∈ w₁, isSpaceChar c = true)
      (hne₂ : w₂ ≠ []) (hw₂ : ∀ c ∈ w₂, isSpaceChar c = true) :
      LiteralDiff (p ++ w₁ ++ q) (p ++ w₂ ++ q)
  | caseDiff (x y : List Char) (h : List.Forall₂ caseEq x y) :
      LiteralDiff x y

lemma isSpaceChar_ne_quote {c : Char} (h : isSpaceChar c = true) : c ≠ '\'' := by
  rw [isSpaceChar_iff] at h
  rw [Ne, char_eq_iff_toNat, quote_toNat]
  omega

lemma replaceStrings_strLit {p a q : List Char}
    (hp : Even (List.count '\'' p)) (ha : '\'' ∉ a) :
    replaceStrings (p ++ '\'' :: a ++ '\'' :: q) =
      replaceStrings p ++ '?' :: replaceStrings q := by
  unfold replaceStrings
  have hx : p ++ '\'' :: a ++ '\'' :: q = p ++ ('\'' :: (a ++ '\'' :: q)) := by
    simp
  rw [hx, rsLoop_append_even hp, rsLoop_cons_none, if_pos rfl,
    rsLoop_literal ha]

lemma replaceStrings_mid {p m q : List Char}
    (hp : Even (List.count '\'' p)) (hm : List.count '\'' m = 0) :
    replaceStrings (p ++ m ++ q) =
      replaceStrings p ++ m ++ replaceStrings q := by
  unfold replaceStrings
  have hmq : '\'' ∉ m := List.count_eq_zero.mp hm
  rw [List.append_assoc, rsLoop_append_even hp,
    rsLoop_append_even (show Even (List.count '\'' m) by rw [hm]; exact even_zero),
    rsLoop_no_quote hmq, List.append_assoc]

lemma rs_nonword_head {q : List Char}
    (hq : q = [] ∨ ∃ qc qtl, q = qc :: qtl ∧ isWordChar qc = false) :
    replaceStrings q = [] ∨
      ∃ c rest, replaceStrings q = c :: rest ∧ isWordChar c = false := by
  rcases hq with rfl | ⟨qc, qtl, rfl, hqw⟩
  · exact Or.inl rfl
  · obtain ⟨c', rest', heq, hcase⟩ := rsLoop_head_cases qc qtl
    right
    refine ⟨c', rest', heq, ?_⟩
    rcases hcase with rfl | rfl
    · exact hqw
    · decide

lemma rn_after_int {p d q : List Char}
    (hne : d ≠ []) (hd : ∀ c ∈ d, c.isDigit = true)
    (hpl : p = [] ∨ ∃ p' c, p = p' ++ [c] ∧ isWordChar c = false ∧ c ≠ '\'')
    (hp : Even (List.count '\'' p))
    (hq : q = [] ∨ ∃ qc qtl, q = qc :: qtl ∧ isWordChar qc = false) :
    rnLoop (replaceStrings p ++ d ++ replaceStrings q) false [] =
      rnLoop (replaceStrings p) false [] ++
        '?' :: rnLoop (replaceStrings q) false [] := by
  have hv : replaceStrings q = [] ∨
      ∃ vc vtl, replaceStrings q = vc :: vtl ∧ isWordChar vc = false :=
    rs_nonword_head hq
  have hrun : rnLoop (d ++ replaceStrings q) false [] =
      '?' :: rnLoop (replaceStrings q) false [] :=
    rnLoop_digit_run d _ hne hd hv
  rcases hpl with rfl | ⟨p', c, rfl, hcw, hcq⟩
  · have h0 : replaceStrings ([] : List Char) = [] := rfl
    rw [h0]
    simp only [List.nil_append]
    rw [hrun]
    rfl
  · have hlast : replaceStrings (p' ++ [c]) = replaceStrings p' ++ [c] :=
      rsLoop_concat_last hp hcq
    rw [hlast]
    have hshape : replaceStrings p' ++ [c] ++ d ++ replaceStrings q =
        replaceStrings p' ++ (c :: (d ++ replaceStrings q)) := by
      simp
    rw [hshape,
      rnLoop_append_nonword (replaceStrings p') false [] c (d ++ replaceStrings q) hcw]
    have hcd : c.isDigit = false := not_word_not_digit hcw
    have hc1 : rnLoop (c :: (d ++ replaceStrings q)) false [] =
        c :: rnLoop (d ++ replaceStrings q) false [] := by
      rw [rnLoop_cons]
      simp [hcd, hcw]
    rw [hc1, hrun]
    have hc2 : rnLoop (replaceStrings p' ++ [c]) false [] =
        rnLoop (replaceStrings p') false [] ++ [c] := by
      rw [rnLoop_append_nonword (replaceStrings p') false [] c [] hcw]
      congr 1
      rw [rnLoop_cons]
      simp [hcd, hcw, rnLoop_nil]
    rw [hc2]
    simp

lemma rn_ws_mid {p q : List Char} (w : List Char) (hne : w ≠ [])
    (hw : ∀ c ∈ w, isSpaceChar c = true) :
    rnLoop (replaceStrings p ++ w ++ replaceStrings q) false [] =
      rnLoop (replaceStrings p) false [] ++ w ++
        rnLoop (replaceStrings q) false [] := by
  obtain ⟨wc, wtl, rfl⟩ := List.exists_cons_of_ne_nil hne
  have hz : isWordChar wc = false :=
    isSpaceChar_not_word (hw wc (List.mem_cons_self _ _))
  rw [List.append_assoc, List.cons_append,
    rnLoop_append_nonword (replaceStrings p) false [] wc (wtl ++ replaceStrings q) hz,
    show wc :: (wtl ++ replaceStrings q) = (wc :: wtl) ++ replaceStrings q from rfl,
    rnLoop_space_run (wc :: wtl) (replaceStrings q) false hw]
  simp

lemma fingerprint_step_invariant {x y : List Char} (h : LiteralDiff x y) :
    fingerprint_query x = fingerprint_query y := by
  cases h with
  | strLit p a b q hp ha hb =>
    unfold fingerprint_query
    rw [replaceStrings_strLit hp ha, replaceStrings_strLit hp hb]
  | intLit p d₁ d₂ q hp hne₁ hd₁ hne₂ hd₂ hpl hq =>
    unfold fingerprint_query
    have hm₁ : List.count '\'' d₁ = 0 := count_quote_eq_zero_of_all_digit hd₁
    have hm₂ : List.count '\'' d₂ = 0 := count_quote_eq_zero_of_all_digit hd₂
    rw [replaceStrings_mid hp hm₁, replaceStrings_mid hp hm₂]
    unfold replaceNumbers
    rw [rn_after_int hne₁ hd₁ hpl hp hq, rn_after_int hne₂ hd₂ hpl hp hq]
  | wsDiff p w₁ w₂ q hp hne₁ hw₁ hne₂ hw₂ =>
    unfold fingerprint_query
    have hm₁ : List.count '\'' w₁ = 0 := by
      rw [List.count_eq_zero]
      intro hmem
      exact isSpaceChar_ne_quote (hw₁ _ hmem) rfl
    have hm₂ : List.count '\'' w₂ = 0 := by
      rw [List.count_eq_zero]
      intro hmem
      exact isSpaceChar_ne_quote (hw₂ _ hmem) rfl
    rw [replaceStrings_mid hp hm₁, replaceStrings_mid hp hm₂]
    unfold replaceNumbers
    rw [rn_ws_mid w₁ hne₁ hw₁, rn_ws_mid w₂ hne₂ hw₂]
    unfold collapseWhitespace
    rw [cwLoop_ws_invariant (rnLoop (replaceStrings p) false [])
      (rnLoop (replaceStrings q) false []) w₁ w₂ ⟨hne₁, hw₁⟩ ⟨hne₂, hw₂⟩]
  | caseDiff x y h =>
    exact fingerprint_case_invariant h

/-! ## N+1 grouping (`silk/utils/n_plus_one.py::detect_n_plus_one`) -/

/-- A `SQLQuery` record as consumed by `detect_n_plus_one`: `q.pk` and
`q.query` (the raw SQL). -/
structure QueryRecord where
  pk : Nat
  query : List Char
deriving DecidableEq

/-- `NPlusOneGroup.__init__`: `count = len(queries)`,
`representative = queries[0]` (totalised to `head?`; bucket lists are never
empty). -/
structure NPlusOneGroup where
  fingerprint : List Char
  queries : List QueryRecord
  count : Nat
  representative : Option QueryRecord
deriving DecidableEq

/-- Constructor wrapper matching `NPlusOneGroup(fingerprint, queries)`. -/
def mkNPlusOneGroup (fp : List Char) (qs : List QueryRecord) : NPlusOneGroup :=
  ⟨fp, qs, qs.length, qs.head?⟩

/-- `NPlusOneResult.__init__`. -/
structure NPlusOneResult where
  groups : List NPlusOneGroup
  flagged_query_ids : Finset Nat
  has_n_plus_one : Bool

/-- `buckets.setdefault(fingerprint_query(q.query), []).append(q)` on a
Python (insertion-ordered) dict, modelled as an association list in
insertion order. -/
def addToBuckets : List (List Char × List QueryRecord) → List Char → QueryRecord →
    List (List Char × List QueryRecord)
  | [], fp, q => [(fp, [q])]
  | (k, v) :: t, fp, q =>
    if k = fp then (k, v ++ [q]) :: t else (k, v) :: addToBuckets t fp q

/-- The `for q in queries` loop of `detect_n_plus_one`. -/
def buildBuckets (queries : List QueryRecord) : List (List Char × List QueryRecord) :=
  queries.foldl (fun b q => addToBuckets b (fingerprint_query q.query) q) []

/-- Insertion step of a stable descending-by-`count` sort: the new element
goes before the first element whose count is `≤` its own, hence after every
strictly greater one and before every equal one seen later (Python
`list.sort(key=..., reverse=True)` is stable). -/
def insertDesc (g : NPlusOneGroup) : List NPlusOneGroup → List NPlusOneGroup
  | [] => [g]
  | h :: t => if h.count ≤ g.count then g :: h :: t else h :: insertDesc g t

/-- `flagged.sort(key=lambda g: g.count, reverse=True)` as a stable
insertion sort. -/
def sortDesc : List NPlusOneGroup → List NPlusOneGroup
  | [] => []
  | g :: t => insertDesc g (sortDesc t)

/-- Embedding of `detect_n_plus_one(queries, threshold)`. -/
def detect_n_plus_one (queries : List QueryRecord) (threshold : Nat) : NPlusOneResult :=
  let buckets := buildBuckets queries
  let flagged := (buckets.filter (fun b => threshold ≤ b.2.length)).map
    (fun b => mkNPlusOneGroup b.1 b.2)
  let sorted := sortDesc flagged
  ⟨sorted,
    sorted.foldl (fun s g => s ∪ (g.queries.map (·.pk)).toFinset) ∅,
    !sorted.isEmpty⟩

/-- Number of queries sharing fingerprint `fp`. -/
def fpCount (queries : List QueryRecord) (fp : List Char) : Nat :=
  (queries.filter (fun q => fingerprint_query q.query = fp)).length

/-- First-occurrence deduplication (keeps the first copy of each element). -/
def firstOccur : List (List Char) → List (List Char)
  | [] => []
  | a :: l => a :: (firstOccur l).filter (fun b => b ≠ a)

/-- The distinct fingerprints of `queries` in first-encounter order. -/
def firstSeenFps (queries : List QueryRecord) : List (List Char) :=
  firstOccur (queries.map (fun q => fingerprint_query q.query))

/-- First matching bucket value for a key (empty if absent): with nodup keys,
the dict lookup. -/
def bLookup : List (List Char × List QueryRecord) → List Char → List QueryRecord
  | [], _ => []
  | (k, v) :: t, fp => if k = fp then v else bLookup t fp

/-! ### Sorting lemmas: `sortDesc` is a stable descending sort by `count` -/

lemma mem_insertDesc {x g : NPlusOneGroup} {l : List NPlusOneGroup} :
    x ∈ insertDesc g l ↔ x = g ∨ x ∈ l := by
  induction l with
  | nil => simp [insertDesc]
  | cons h t ih =>
    unfold insertDesc
    split_ifs with hc
    · simp [or_comm, or_left_comm]
    · simp [ih, or_comm, or_left_comm]

lemma insertDesc_perm (g : NPlusOneGroup) (l : List NPlusOneGroup) :
    List.Perm (insertDesc g l) (g :: l) := by
  induction l with
  | nil => simp [insertDesc]
  | cons h t ih =>
    unfold insertDesc
    split_ifs with hc
    · exact List.Perm.refl _
    · exact (ih.cons h).trans (List.Perm.swap g h t)

lemma sortDesc_perm (l : List NPlusOneGroup) : List.Perm (sortDesc l) l := by
  induction l with
  | nil => exact List.Perm.refl _
  | cons g t ih =>
    unfold sortDesc
    exact (insertDesc_perm g (sortDesc t)).trans (ih.cons g)

lemma pairwise_insertDesc {l : List NPlusOneGroup}
    (h : l.Pairwise (fun a b => b.count ≤ a.count)) (g : NPlusOneGroup) :
    (insertDesc g l).Pairwise (fun a b => b.count ≤ a.count) := by
  induction l with
  | nil => simp [insertDesc]
  | cons hd t ih =>
    unfold insertDesc
    rw [List.pairwise_cons] at h
    split_ifs with hc
    · refine List.Pairwise.cons ?_ (List.Pairwise.cons h.1 h.2)
      intro x hx
      rcases List.mem_cons.mp hx with rfl | hx
      · exact hc
      · exact le_trans (h.1 x hx) hc
    · refine List.Pairwise.cons ?_ (ih h.2)
      intro x hx
      rcases mem_insertDesc.mp hx with rfl | hx
      · exact le_of_lt (lt_of_not_le hc)
      · exact h.1 x hx

lemma sortDesc_pairwise (l : List NPlusOneGroup) :
    (sortDesc l).Pairwise (fun a b => b.count ≤ a.count) := by
  induction l with
  | nil => simp [sortDesc]
  | cons g t ih => exact pairwise_insertDesc ih g

lemma filter_insertDesc (g : NPlusOneGroup) (l : List NPlusOneGroup) (c : Nat) :
    (insertDesc g l).filter (fun x => x.count = c) =
      if g.count = c then g :: l.filter (fun x => x.count = c)
      else l.filter (fun x => x.count = c) := by
  induction l with
  | nil =>
    unfold insertDesc
    rw [List.filter_cons, List.filter_nil]
    by_cases hg : g.count = c
    · simp [hg]
    · simp [hg]
  | cons h t ih =>
    unfold insertDesc
    by_cases hc : h.count ≤ g.count
    · rw [if_pos hc, List.filter_cons, List.filter_cons]
      by_cases hg : g.count = c <;> simp [hg, List.filter_cons]
    · rw [if_neg hc, List.filter_cons]
      simp only [ih]
      by_cases hg : g.count = c <;> by_cases hh : h.count = c <;>
        simp [hg, hh, List.filter_cons] <;> omega

lemma sortDesc_filter_count (l : List NPlusOneGroup) (c : Nat) :
    (sortDesc l).filter (fun x => x.count = c) = l.filter (fun x => x.count = c) := by
  induction l with
  | nil => rfl
  | cons g t ih =>
    unfold sortDesc
    rw [filter_insertDesc, List.filter_cons]
    split_ifs with hc <;> simp_all

/-! ### Bucket lemmas: `buildBuckets` groups by fingerprint in
first-encounter order, preserving input order within a group -/

lemma bLookup_addToBuckets (b : List (List Char × List QueryRecord))
    (fp' : List Char) (q : QueryRecord) (fp : List Char) :
    bLookup (addToBuckets b fp' q) fp =
      if fp = fp' then bLookup b fp ++ [q] else bLookup b fp := by
  induction b with
  | nil =>
    unfold addToBuckets bLookup
    by_cases h : fp = fp'
    · subst h
      simp
    · simp [h, Ne.symm h, bLookup]
  | cons pr t ih =>
    obtain ⟨k, v⟩ := pr
    unfold addToBuckets
    by_cases hk : k = fp'
    · subst hk
      rw [if_pos rfl]
      unfold bLookup
      by_cases h : k = fp
      · subst h
        simp
      · simp only [if_neg h]
        rw [if_neg (fun hh : fp = k => h hh.symm)]
    · rw [if_neg hk]
      unfold bLookup
      by_cases h : k = fp
      · subst h
        rw [if_pos rfl, if_pos rfl, if_neg (fun hh : k = fp' => hk hh)]
      · rw [if_neg h, if_neg h, ih]

lemma map_fst_addToBuckets (b : List (List Char × List QueryRecord))
    (fp : List Char) (q : QueryRecord) :
    (addToBuckets b fp q).map Prod.fst =
      if fp ∈ b.map Prod.fst then b.map Prod.fst else b.map Prod.fst ++ [fp] := by
  induction b with
  | nil => simp [addToBuckets]
  | cons pr t ih =>
    obtain ⟨k, v⟩ := pr
    unfold addToBuckets
    by_cases hk : k = fp
    · subst hk
      simp
    · rw [if_neg hk]
      simp only [List.map_cons]
      rw [ih]
      have hkk : ¬ fp = k := fun h => hk h.symm
      by_cases hmem : fp ∈ t.map Prod.fst
      · rw [if_pos hmem, if_pos (by simp [hmem])]
      · rw [if_neg hmem, if_neg (by simp [hkk, hmem]), List.cons_append]

lemma buildBuckets_append (qs : List QueryRecord) (q : QueryRecord) :
    buildBuckets (qs ++ [q]) =
      addToBuckets (buildBuckets qs) (fingerprint_query q.query) q := by
  unfold buildBuckets
  rw [List.foldl_append]
  rfl

lemma mem_firstOccur {a : List Char} {l : List (List Char)} :
    a ∈ firstOccur l ↔ a ∈ l := by
  induction l with
  | nil => simp [firstOccur]
  | cons b t ih =>
    unfold firstOccur
    by_cases h : a = b
    · subst h
      simp
    · simp only [List.mem_cons, h, false_or]
      rw [List.mem_filter]
      simp [h, ih]

lemma firstOccur_nodup (l : List (List Char)) : (firstOccur l).Nodup := by
  induction l with
  | nil => simp [firstOccur]
  | cons b t ih =>
    unfold firstOccur
    refine List.Nodup.cons ?_ (ih.filter _)
    intro hmem
    have := (List.mem_filter.mp hmem).2
    simp at this

lemma firstOccur_append_singleton (l : List (List Char)) (a : List Char) :
    firstOccur (l ++ [a]) =
      if a ∈ l then firstOccur l else firstOccur l ++ [a] := by
  induction l with
  | nil => simp [firstOccur]
  | cons b t ih =>
    simp only [List.cons_append]
    unfold firstOccur
    rw [ih]
    by_cases hat : a ∈ t
    · rw [if_pos hat, if_pos (by simp [hat])]
    · rw [if_neg hat]
      by_cases hab : a = b
      · subst hab
        rw [if_pos (by simp), List.filter_append]
        simp
      · rw [if_neg (by simp [hab, hat]), List.filter_append]
        simp [fun h : a = b => hab h, hab]

lemma map_fst_buildBuckets (qs : List QueryRecord) :
    (buildBuckets qs).map Prod.fst = firstSeenFps qs := by
  induction qs using List.reverseRecOn with
  | nil => rfl
  | append_singleton l q ih =>
    rw [buildBuckets_append, map_fst_addToBuckets, ih]
    unfold firstSeenFps
    rw [List.map_append, List.map_singleton, firstOccur_append_singleton]
    unfold firstSeenFps at ih
    by_cases h : fingerprint_query q.query ∈ l.map (fun q => fingerprint_query q.query)
    · rw [if_pos (by rwa [mem_firstOccur]), if_pos h]
    · rw [if_neg (by rwa [mem_firstOccur]), if_neg h]

lemma bLookup_buildBuckets (qs : List QueryRecord) (fp : List Char) :
    bLookup (buildBuckets qs) fp =
      qs.filter (fun q => fingerprint_query q.query = fp) := by
  induction qs using List.reverseRecOn with
  | nil => rfl
  | append_singleton l q ih =>
    rw [buildBuckets_append, bLookup_addToBuckets, List.filter_append, ih]
    by_cases h : fingerprint_query q.query = fp
    · rw [if_pos h.symm]
      simp [h]
    · rw [if_neg (fun hh => h hh.symm)]
      simp [h]

lemma bLookup_of_mem {b : List (List Char × List QueryRecord)}
    {pr : List Char × List QueryRecord}
    (hnd : (b.map Prod.fst).Nodup) (h : pr ∈ b) : bLookup b pr.1 = pr.2 := by
  induction b with
  | nil => cases h
  | cons hd t ih =>
    rcases List.mem_cons.mp h with rfl | hmem
    · unfold bLookup
      simp
    · obtain ⟨k, v⟩ := hd
      simp only [List.map_cons, List.nodup_cons] at hnd
      have hne : k ≠ pr.1 := by
        intro he
        exact hnd.1 (he ▸ List.mem_map.mpr ⟨pr, hmem, rfl⟩)
      unfold bLookup
      rw [if_neg hne]
      exact ih hnd.2 hmem

/-! ## Filter selection state (`requests.py::RequestsView.post`)

`RequestsView.post` computes the new persisted filter state from the previous
one in three branches: clear-filters (`'clear_filters' in request.POST`),
full filter-form replace (`is_filter_submit`), and the sort/toolbar merge
branch.  `FiltersManager` and `filters_from_request` live in
`silk/request_filters.py`, which is not part of the analysed sources; per the
spec, `get` returns the current state (empty if absent) and `save` is a full
replace, so each branch is modelled as a function from the previous state and
the request data to the state that gets saved.  A Python dict is modelled by
its lookup function; `{**a, **b}` is lookup-in-`b`-else-`a`. -/

/-- A value stored in the persisted selection state: a display option (int or
string) or a serialized predicate dictionary.  The branch logic never
inspects values. -/
inductive Val
  | vInt (n : ℤ)
  | vStr (s : String)
  | vDict (fields : List (String × String))
deriving DecidableEq

/-- A session-state dict, modelled by its lookup function. -/
abbrev St : Type := String → Option Val

/-- The `non_filter_keys` list of `RequestsView.post`. -/
def nonFilterKeys : List String := ["show", "order_by", "order_dir", "view_style"]

/-- The `'clear_filters' in request.POST` branch:
`{k: v for k, v in previous_session.items() if k in ['show', 'view_style']}`. -/
def clearFiltersBranch (prev : St) : St :=
  fun k => if k = "show" ∨ k = "view_style" then prev k else none

/-- The `is_filter_submit` branch: keep the four display keys of the previous
state, then overlay the predicates decoded from the form
(`filters_from_request`, modelled from the spec as an arbitrary mapping of
filter identifiers to serialized predicates). -/
def filterSubmitBranch (prev formFilters : St) : St :=
  fun k =>
    match formFilters k with
    | some v => some v
    | none => if k ∈ nonFilterKeys then prev k else none

/-- The sort/toolbar branch: `updated` is the POST restricted to
`non_filter_keys`, and the saved state is `{**previous_session, **updated}`. -/
def toolbarBranch (prev post : St) : St :=
  fun k =>
    match (if k ∈ nonFilterKeys then post k else none) with
    | some v => some v
    | none => prev k

/-- Previous state `{"order_by": "path", "show": 25}` of the spec's example. -/
def mergeExamplePrev : St :=
  fun k => if k = "order_by" then some (.vStr "path")
    else if k = "show" then some (.vInt 25) else none

/-- Submitted toolbar data `{"show": 50}` of the spec's example. -/
def mergeExamplePost : St :=
  fun k => if k = "show" then some (.vInt 50) else none

/-- Expected result `{"order_by": "path", "show": 50}` of the spec's example. -/
def mergeExampleExpected : St :=
  fun k => if k = "order_by" then some (.vStr "path")
    else if k = "show" then some (.vInt 50) else none

end Silky

/-- **C1.** For every ascending numeric sample and every `p ∈ [0,100]`,
`_percentile(sample, p)` equals the linear-interpolation definition
(`lo = floor(idx)`, last element when `hi ≥ n`, otherwise
`sample[lo]*(1-frac) + sample[hi]*frac`); moreover
`_percentile([], 50) = 0`, `_percentile([x], p) = x` for every single-element
sample, and `_percentile([10,20,30,40], 50) = 25`. -/
theorem C1_percentile_linear_interpolation
    (sample : List ℚ) (p : ℚ) (hsorted : sample.Sorted (· ≤ ·))
    (hp0 : 0 ≤ p) (hp1 : p ≤ 100) :
    Silky.percentile sample p = Silky.percentileSpec sample p ∧
    Silky.percentile [] 50 = 0 ∧
    (∀ x q : ℚ, Silky.percentile [x] q = x) ∧
    Silky.percentile [10, 20, 30, 40] 50 = 25 := by
  refine ⟨?_, by norm_num [Silky.percentile], ?_, ?_⟩
  · unfold Silky.percentile Silky.percentileSpec
    cases h : sample.length with
    | zero => simp [h]
    | succ m =>
      have hidx : (0 : ℚ) ≤ (p / 100) * ((sample.length : ℚ) - 1) := by
        apply mul_nonneg
        · positivity
        · rw [h]
          push_cast
          linarith
      simp only [h]
      rw [Silky.pyInt_eq_floor_of_nonneg (by rw [h] at hidx; exact_mod_cast hidx)]
  · intro x q
    unfold Silky.percentile
    norm_num [Silky.pyInt]
  · norm_num [Silky.percentile, Silky.pyInt, Int.toNat]

/-- Witness for C1 at a concrete input. -/
theorem C1_percentile_linear_interpolation_witness :
    Silky.percentile [10, 20, 30, 40] 50 = Silky.percentileSpec [10, 20, 30, 40] 50 :=
  (C1_percentile_linear_interpolation [10, 20, 30, 40] 50 (by decide) (by norm_num) (by norm_num)).1

/-- **C4.** Every considered time value goes to the first bucket of the fixed
boundary list (50, 100, 200, 500, 1000, unbounded) whose upper bound it is
strictly below, the unbounded bucket catching the remainder; exact boundary
values fall in the next bucket (50 is in `50-100ms`); each considered value is
counted in exactly one bucket (the counts sum to the number of considered
values); and only non-null, non-negative values are considered (`none` rows
and negative values leave the histogram unchanged). -/
theorem C4_response_time_histogram (rows : List (Option ℚ)) :
    ((Silky.respTimeHistogram rows).length = 6 ∧
      ∀ k : Nat, (Silky.respTimeHistogram rows).getD k 0 =
        ((rows.filterMap id).filter (fun t => 0 ≤ t)).countP
          (fun t => Silky.rtBucketSpec t = k)) ∧
    (Silky.respTimeHistogram rows).sum =
      ((rows.filterMap id).filter (fun t => 0 ≤ t)).length ∧
    (Silky.rtBucketSpec 50 = 1 ∧ Silky.rtBucketSpec 100 = 2 ∧
      Silky.rtBucketSpec 200 = 3 ∧ Silky.rtBucketSpec 500 = 4 ∧
      Silky.rtBucketSpec 1000 = 5) ∧
    Silky.respTimeHistogram (none :: rows) = Silky.respTimeHistogram rows ∧
    (∀ t : ℚ, t < 0 → Silky.respTimeHistogram (some t :: rows) = Silky.respTimeHistogram rows) := by
  have hfold :
      Silky.respTimeHistogram rows =
        [((rows.filterMap id).filter (fun t => 0 ≤ t)).countP (fun t => Silky.rtBucketSpec t = 0),
         ((rows.filterMap id).filter (fun t => 0 ≤ t)).countP (fun t => Silky.rtBucketSpec t = 1),
         ((rows.filterMap id).filter (fun t => 0 ≤ t)).countP (fun t => Silky.rtBucketSpec t = 2),
         ((rows.filterMap id).filter (fun t => 0 ≤ t)).countP (fun t => Silky.rtBucketSpec t = 3),
         ((rows.filterMap id).filter (fun t => 0 ≤ t)).countP (fun t => Silky.rtBucketSpec t = 4),
         ((rows.filterMap id).filter (fun t => 0 ≤ t)).countP (fun t => Silky.rtBucketSpec t = 5)] := by
    unfold Silky.respTimeHistogram Silky.histInit
    dsimp only
    rw [Silky.hist_fold_general]
    simp
  refine ⟨⟨by rw [hfold]; rfl, ?_⟩, ?_, ?_, ?_, ?_⟩
  · intro k
    rw [hfold]
    match k with
    | 0 => rfl
    | 1 => rfl
    | 2 => rfl
    | 3 => rfl
    | 4 => rfl
    | 5 => rfl
    | (m + 6) =>
      simp only [List.getD_eq_getElem?_getD]
      rw [List.getElem?_eq_none (by simp)]
      rw [List.countP_eq_zero.mpr]
      · rfl
      · intro t _
        have := Silky.rtBucketSpec_le_five t
        simp only [decide_eq_true_eq]
        omega
  · rw [hfold]
    simp only [List.sum_cons, List.sum_nil, Nat.add_zero]
    induction (rows.filterMap id).filter (fun t => 0 ≤ t) with
    | nil => simp
    | cons t ts ih =>
      simp only [List.countP_cons, decide_eq_true_eq, List.length_cons]
      have := Silky.bucket_indicator_sum t
      omega
  · refine ⟨?_, ?_, ?_, ?_, ?_⟩ <;> norm_num [Silky.rtBucketSpec]
  · unfold Silky.respTimeHistogram
    simp
  · intro t ht
    unfold Silky.respTimeHistogram
    simp [List.filter_cons, not_le.mpr ht]

/-- Witness for C4 at a concrete input: a null row and a negative value are
ignored. -/
theorem C4_response_time_histogram_witness :
    Silky.respTimeHistogram (some (-3) :: [none, some 60]) =
      Silky.respTimeHistogram [none, some 60] :=
  (C4_response_time_histogram [none, some 60]).2.2.2.2 (-3) (by norm_num)

/-- **C7, counterexample.** A response with `status_code = 600` is counted
into the `5xx` bucket although the first digit of its status is 6: the code
bucketes with `sc >= 500`, not by first digit, so the claim's bucketing rule
fails at this input.  (A `status_code` below 200, e.g. 100, likewise ends up
in no bucket at all, breaking the claim's "counts each non-null response"
part.) -/
theorem C7_status_distribution_counterexample :
    ¬ Silky.statusClaimHolds [1] [⟨1, some 600⟩] ∧
      Silky.statusDistribution [1] [⟨1, some 600⟩] = ⟨0, 0, 0, 1⟩ ∧
      Silky.statusDistribution [1] [⟨1, some 100⟩] = ⟨0, 0, 0, 0⟩ := by
  refine ⟨?_, by decide, by decide⟩
  intro h
  exact absurd h (by decide)

/-- **C7, amended.** The status distribution counts each associated response
whose `status_code` is non-null into the bucket of its hundred-range —
`200 ≤ sc < 300 → 2xx`, `300 ≤ sc < 400 → 3xx`, `400 ≤ sc < 500 → 4xx` — and
every status `≥ 500` into `5xx`; statuses below 200 are counted in no bucket;
responses with null `status_code` or a foreign `request_id` are excluded; an
empty request set yields the full four-bucket mapping with all buckets zero. -/
theorem C7_status_distribution_amended (request_pks : List Nat) (responses : List Silky.RespRec) :
    (request_pks = [] → Silky.statusDistribution request_pks responses = ⟨0, 0, 0, 0⟩) ∧
    (Silky.statusDistribution request_pks responses).s2 =
      (Silky.associatedStatuses request_pks responses).countP (fun sc => 200 ≤ sc ∧ sc < 300) ∧
    (Silky.statusDistribution request_pks responses).s3 =
      (Silky.associatedStatuses request_pks responses).countP (fun sc => 300 ≤ sc ∧ sc < 400) ∧
    (Silky.statusDistribution request_pks responses).s4 =
      (Silky.associatedStatuses request_pks responses).countP (fun sc => 400 ≤ sc ∧ sc < 500) ∧
    (Silky.statusDistribution request_pks responses).s5 =
      (Silky.associatedStatuses request_pks responses).countP (fun sc => 500 ≤ sc) ∧
    (∀ i : Nat, ∀ rest : List Silky.RespRec,
      Silky.statusDistribution request_pks (⟨i, none⟩ :: rest) =
        Silky.statusDistribution request_pks rest) ∧
    (∀ i : Nat, ∀ sc : ℤ, ∀ rest : List Silky.RespRec, i ∉ request_pks →
      Silky.statusDistribution request_pks (⟨i, some sc⟩ :: rest) =
        Silky.statusDistribution request_pks rest) := by
  have hassoc :
      ∀ rs, Silky.statusDistribution request_pks rs =
        if request_pks = [] then ⟨0, 0, 0, 0⟩
        else ⟨(Silky.associatedStatuses request_pks rs).countP (fun sc => 200 ≤ sc ∧ sc < 300),
              (Silky.associatedStatuses request_pks rs).countP (fun sc => 300 ≤ sc ∧ sc < 400),
              (Silky.associatedStatuses request_pks rs).countP (fun sc => 400 ≤ sc ∧ sc < 500),
              (Silky.associatedStatuses request_pks rs).countP (fun sc => 500 ≤ sc)⟩ := by
    intro rs
    unfold Silky.statusDistribution
    split_ifs with h
    · rfl
    · rw [Silky.status_fold_general]
      simp
  have hempty : request_pks = [] →
      ∀ rs, Silky.associatedStatuses request_pks rs = [] := by
    intro h rs
    subst h
    unfold Silky.associatedStatuses
    simp
  refine ⟨fun h => by rw [hassoc, if_pos h], ?_, ?_, ?_, ?_, ?_, ?_⟩
  · by_cases h : request_pks = []
    · rw [hassoc, if_pos h, hempty h]
      simp
    · rw [hassoc, if_neg h]
  · by_cases h : request_pks = []
    · rw [hassoc, if_pos h, hempty h]
      simp
    · rw [hassoc, if_neg h]
  · by_cases h : request_pks = []
    · rw [hassoc, if_pos h, hempty h]
      simp
    · rw [hassoc, if_neg h]
  · by_cases h : request_pks = []
    · rw [hassoc, if_pos h, hempty h]
      simp
    · rw [hassoc, if_neg h]
  · intro i rest
    rw [hassoc, hassoc]
    unfold Silky.associatedStatuses
    simp [List.filterMap_cons]
  · intro i sc rest hi
    rw [hassoc, hassoc]
    unfold Silky.associatedStatuses
    simp [List.filterMap_cons, hi]

/-- Witness for C7's amended theorem at a concrete input. -/
theorem C7_status_distribution_amended_witness :
    Silky.statusDistribution [1] [⟨1, some 204⟩, ⟨2, some 500⟩] =
      Silky.statusDistribution [1] [⟨1, some 204⟩] := by
  have h := (C7_status_distribution_amended [1] [⟨1, some 204⟩]).2.2.2.2.2.2 2 500
    [⟨1, some 204⟩] (by decide)
  have hperm : Silky.statusDistribution [1] [⟨1, some 204⟩, ⟨2, some 500⟩] =
      Silky.statusDistribution [1] [⟨2, some 500⟩, ⟨1, some 204⟩] := by decide
  rw [hperm, h]

/-- **C6.** The toolbar merge branch of `RequestsView.post` overlays only the
submitted `non_filter_keys` entries onto the existing session state: keys not
submitted (or not in `non_filter_keys`) keep their previous value, submitted
keys take the submitted value, and the spec's example
`{"show": 50}` over `{"order_by": "path", "show": 25}` yields exactly
`{"order_by": "path", "show": 50}`. -/
theorem C6_toolbar_merge_preserves_untouched_keys :
    (∀ (prev post : Silky.St) (k : String), k ∉ Silky.nonFilterKeys →
      Silky.toolbarBranch prev post k = prev k) ∧
    (∀ (prev post : Silky.St) (k : String), post k = none →
      Silky.toolbarBranch prev post k = prev k) ∧
    (∀ (prev post : Silky.St) (k : String) (v : Silky.Val),
      k ∈ Silky.nonFilterKeys → post k = some v →
      Silky.toolbarBranch prev post k = some v) ∧
    (∀ k : String,
      Silky.toolbarBranch Silky.mergeExamplePrev Silky.mergeExamplePost k =
        Silky.mergeExampleExpected k) := by
  refine ⟨?_, ?_, ?_, ?_⟩
  · intro prev post k hk
    unfold Silky.toolbarBranch
    rw [if_neg hk]
  · intro prev post k hk
    unfold Silky.toolbarBranch
    rw [hk]
    split <;> simp_all
  · intro prev post k v hk hv
    unfold Silky.toolbarBranch
    rw [if_pos hk, hv]
  · intro k
    unfold Silky.toolbarBranch Silky.mergeExamplePrev Silky.mergeExamplePost
      Silky.mergeExampleExpected Silky.nonFilterKeys
    by_cases h1 : k = "show"
    · subst h1; rfl
    · by_cases h2 : k = "order_by"
      · subst h2; rfl
      · simp only [if_neg h1, if_neg h2]
        split <;> simp_all

/-- Witness for C6 at a concrete key. -/
theorem C6_toolbar_merge_preserves_untouched_keys_witness :
    Silky.toolbarBranch Silky.mergeExamplePrev Silky.mergeExamplePost "order_by" =
      Silky.mergeExamplePrev "order_by" :=
  C6_toolbar_merge_preserves_untouched_keys.2.1 Silky.mergeExamplePrev
    Silky.mergeExamplePost "order_by" (by decide)

/-- **C10.** Every branch of `RequestsView.post` (clear-filters, full
filter-form replace, toolbar merge) preserves the `show` and `view_style`
display keys when present in the previous state: none of the three saved
states ever drops them, and they change only to an explicitly submitted
value. -/
theorem C10_post_branches_preserve_show_view_style
    (prev fs post : Silky.St) (k : String)
    (hk : k = "show" ∨ k = "view_style") :
    Silky.clearFiltersBranch prev k = prev k ∧
    ((prev k).isSome → (Silky.filterSubmitBranch prev fs k).isSome) ∧
    (fs k = none → Silky.filterSubmitBranch prev fs k = prev k) ∧
    (∀ v, fs k = some v → Silky.filterSubmitBranch prev fs k = some v) ∧
    ((prev k).isSome → (Silky.toolbarBranch prev post k).isSome) ∧
    (post k = none → Silky.toolbarBranch prev post k = prev k) ∧
    (∀ v, post k = some v → Silky.toolbarBranch prev post k = some v) := by
  have hmem : k ∈ Silky.nonFilterKeys := by
    rcases hk with h | h <;> subst h <;> decide
  refine ⟨?_, ?_, ?_, ?_, ?_, ?_, ?_⟩
  · unfold Silky.clearFiltersBranch
    rw [if_pos hk]
  · intro hsome
    unfold Silky.filterSubmitBranch
    split
    · simp
    · rw [if_pos hmem]; exact hsome
  · intro hnone
    unfold Silky.filterSubmitBranch
    rw [hnone, if_pos hmem]
  · intro v hv
    unfold Silky.filterSubmitBranch
    rw [hv]
  · intro hsome
    unfold Silky.toolbarBranch
    rw [if_pos hmem]
    split <;> simp_all
  · intro hnone
    unfold Silky.toolbarBranch
    rw [if_pos hmem, hnone]
  · intro v hv
    unfold Silky.toolbarBranch
    rw [if_pos hmem, hv]

/-- Witness for C10 at a concrete state: the clear-filters branch keeps the
example's `"show"` value. -/
theorem C10_post_branches_preserve_show_view_style_witness :
    Silky.clearFiltersBranch Silky.mergeExamplePrev "show" =
      Silky.mergeExamplePrev "show" :=
  (C10_post_branches_preserve_show_view_style Silky.mergeExamplePrev
    Silky.mergeExamplePost Silky.mergeExamplePost "show" (Or.inl rfl)).1

namespace Silky

lemma mem_buildBuckets_eq {qs : List QueryRecord}
    {pr : List Char × List QueryRecord} (h : pr ∈ buildBuckets qs) :
    pr.2 = qs.filter (fun q => fingerprint_query q.query = pr.1) := by
  have hnd : ((buildBuckets qs).map Prod.fst).Nodup := by
    rw [map_fst_buildBuckets]
    exact firstOccur_nodup _
  rw [← bLookup_of_mem hnd h, bLookup_buildBuckets]

/-! ## Sort pipeline (`requests.py::SORT_OPTIONS`, `_apply_sort`,
`RequestsView._get_objects`)

A `Request` row is modelled with the fields the sort path touches; the
related SQL queries' nullable `time_taken` values stand in for the
`queries` relation.  Django specifics are modelled as follows:
`.filter(time_taken__gte=0)` keeps rows whose value is non-null and `≥ 0`
(SQL comparisons with NULL are not true); `Sum('queries__time_taken')` is
NULL when no non-null related value exists, else the sum of the non-null
ones; `.order_by(*fields)` is a single multi-key lexicographic ordering,
realised as a deterministic stable insertion sort (the claims under study do
not depend on the database's tie order). -/

/-- A `Request` record (sort-relevant fields). -/
structure Req where
  pk : Nat
  path : String
  view_name : String
  method : String
  start_time : ℚ
  time_taken : Option ℚ
  num_sql_queries : Nat
  queries : List (Option ℚ)
deriving DecidableEq

/-- `Sum('queries__time_taken')` annotation (SQL `SUM`). -/
def dbTime (r : Req) : Option ℚ :=
  match r.queries.filterMap id with
  | [] => none
  | l => some l.sum

/-- One `{field, dir}` entry of a sort specification; `item.get('field',
'start_time')` and `item.get('dir', 'DESC')` read them with defaults. -/
structure SortItem where
  field : Option String
  dir : Option String
deriving DecidableEq

/-- Membership in `SORT_OPTIONS`. -/
def knownField (f : String) : Bool :=
  f = "start_time" || f = "path" || f = "num_sql_queries" ||
    f = "time_taken" || f = "db_time"

/-- `SORT_OPTIONS[...]["additional_query_filter"]` for `time_taken`:
`qs.filter(time_taken__gte=0)`. -/
def keepTimeTaken (r : Req) : Bool :=
  match r.time_taken with
  | some t => decide (0 ≤ t)
  | none => false

/-- `SORT_OPTIONS["db_time"]["additional_query_filter"]`:
`qs.annotate(db_time=Sum('queries__time_taken')).filter(db_time__gte=0)`. -/
def keepDbTime (r : Req) : Bool :=
  match dbTime r with
  | some t => decide (0 ≤ t)
  | none => false

/-- The per-field `additional_query_filter` (identity when the entry is
`None`). -/
def additionalQueryFilter (f : String) (qs : List Req) : List Req :=
  if f = "time_taken" then qs.filter keepTimeTaken
  else if f = "db_time" then qs.filter keepDbTime
  else qs

/-- Strict comparison for one sort field (NULLs first, as a fixed
deterministic convention for the database's NULL placement). -/
def fieldLt (f : String) (a b : Req) : Bool :=
  if f = "start_time" then decide (a.start_time < b.start_time)
  else if f = "path" then decide (a.path < b.path)
  else if f = "num_sql_queries" then decide (a.num_sql_queries < b.num_sql_queries)
  else if f = "time_taken" then
    match a.time_taken, b.time_taken with
    | none, none => false
    | none, some _ => true
    | some _, none => false
    | some x, some y => decide (x < y)
  else if f = "db_time" then
    match dbTime a, dbTime b with
    | none, none => false
    | none, some _ => true
    | some _, none => false
    | some x, some y => decide (x < y)
  else false

/-- Lexicographic `ORDER BY` comparison over `(field, is_descending)`
pairs. -/
def keyLe : List (String × Bool) → Req → Req → Bool
  | [], _, _ => true
  | (f, desc) :: rest, a, b =>
    let x := if desc then b else a
    let y := if desc then a else b
    if fieldLt f x y then true
    else if fieldLt f y x then false
    else keyLe rest a b

/-- Stable insertion for `orderBy`. -/
def insertLe (le : Req → Req → Bool) (r : Req) : List Req → List Req
  | [] => [r]
  | h :: t => if le r h then r :: h :: t else h :: insertLe le r t

/-- `query_set.order_by(*order_fields)`: a deterministic stable sort by the
compound key. -/
def orderBy (fields : List (String × Bool)) : List Req → List Req
  | [] => []
  | r :: t => insertLe (keyLe fields) r (orderBy fields t)

/-- The `order_fields` accumulated by the `_apply_sort` loop: one
`(field, dir == 'DESC')` pair per known field, in list order. -/
def sortFields (sl : List SortItem) : List (String × Bool) :=
  sl.foldr
    (fun item acc =>
      let f := item.field.getD "start_time"
      if knownField f then (f, item.dir.getD "DESC" = "DESC") :: acc else acc)
    []

/-- The `query_set` rebindings of the `_apply_sort` loop (the filter and the
`order_fields` accumulations of the single source loop are independent, so
they are modelled as two passes). -/
def applyAddFilters (qs : List Req) (sl : List SortItem) : List Req :=
  sl.foldl
    (fun acc item =>
      let f := item.field.getD "start_time"
      if knownField f then additionalQueryFilter f acc else acc)
    qs

/-- Embedding of `_apply_sort(query_set, sort_list)`. -/
def applySort (query_set : List Req) (sort_list : List SortItem) : List Req :=
  let qs2 := applyAddFilters query_set sort_list
  let fields := sortFields sort_list
  if fields.isEmpty then qs2 else orderBy fields qs2

/-- The three-state `show` parameter of `_get_objects` (`_SHOW_NOT_SET`
sentinel vs explicit `None` vs an int). -/
inductive ShowParam
  | notSet
  | noLimit
  | limit (n : Nat)
deriving DecidableEq

/-- The legacy `order_by`/`order_dir` arm of `_get_objects`: falsy values
(`None`, `''`) fall back to `default_order_by`/`default_order_dir`, an
unknown `order_by` raises `RuntimeError('Unknown order_by: "%s"')`. -/
def legacyOrder (order_by order_dir : Option String) (base : List Req) :
    Except String (List Req) :=
  let ob := match order_by with
    | none => "start_time"
    | some s => if s = "" then "start_time" else s
  let od := match order_dir with
    | none => "DESC"
    | some s => if s = "" then "DESC" else s
  if knownField ob then Except.ok (applySort base [⟨some ob, some od⟩])
  else Except.error ("Unknown order_by: \"" ++ ob ++ "\"")

/-- Embedding of `RequestsView._get_objects`: the sort determination
(`sort_list` truthy → `_apply_sort`; otherwise the legacy
`order_by`/`order_dir` arm), then the `path` filter, the predicate filters
(`BaseFilter` contributions modelled as row predicates), and the
backward-compatible slicing driven by the three-state `show` parameter. -/
def getObjects (show? : ShowParam) (order_by order_dir : Option String)
    (path : Option String) (filters : List (Req → Bool))
    (sort_list : Option (List SortItem)) (base : List Req) :
    Except String (List Req) :=
  let sortedE : Except String (List Req) :=
    match sort_list with
    | some sl =>
      if sl.isEmpty then legacyOrder order_by order_dir base
      else Except.ok (applySort base sl)
    | none => legacyOrder order_by order_dir base
  match sortedE with
  | Except.error e => Except.error e
  | Except.ok qs1 =>
    let qs2 := match path with
      | some p => qs1.filter (fun r => r.path = p)
      | none => qs1
    let qs3 := filters.foldl (fun acc f => acc.filter f) qs2
    Except.ok (match show? with
      | ShowParam.notSet => qs3.take 25
      | ShowParam.noLimit => qs3
      | ShowParam.limit n => qs3.take n)

/-- The field names of a sort specification, with the `'start_time'`
default for missing keys. -/
def slFields (sl : List SortItem) : List String :=
  sl.map (fun i => i.field.getD "start_time")

/-! ### Sort pipeline lemmas -/

lemma insertLe_perm (le : Req → Req → Bool) (r : Req) (l : List Req) :
    List.Perm (insertLe le r l) (r :: l) := by
  induction l with
  | nil => simp [insertLe]
  | cons h t ih =>
    unfold insertLe
    split_ifs with hc
    · exact List.Perm.refl _
    · exact (ih.cons h).trans (List.Perm.swap r h t)

lemma orderBy_perm (fields : List (String × Bool)) (l : List Req) :
    List.Perm (orderBy fields l) l := by
  induction l with
  | nil => exact List.Perm.refl _
  | cons r t ih =>
    unfold orderBy
    exact (insertLe_perm _ r (orderBy fields t)).trans (ih.cons r)

lemma additionalQueryFilter_sublist (f : String) (qs : List Req) :
    (additionalQueryFilter f qs).Sublist qs := by
  unfold additionalQueryFilter
  split_ifs <;> first | exact List.filter_sublist _ | exact List.Sublist.refl _

lemma applyAddFilters_sublist (qs : List Req) (sl : List SortItem) :
    (applyAddFilters qs sl).Sublist qs := by
  induction sl generalizing qs with
  | nil => exact List.Sublist.refl _
  | cons i sl ih =>
    unfold applyAddFilters
    rw [List.foldl_cons]
    refine List.Sublist.trans (ih _) ?_
    dsimp only
    split_ifs with h
    · exact additionalQueryFilter_sublist _ _
    · exact List.Sublist.refl _

lemma applySort_perm (qs : List Req) (sl : List SortItem) :
    List.Perm (applySort qs sl) (applyAddFilters qs sl) := by
  unfold applySort
  dsimp only
  split_ifs with h
  · exact List.Perm.refl _
  · exact orderBy_perm _ _

lemma applyAddFilters_cons (qs : List Req) (i : SortItem) (sl : List SortItem) :
    applyAddFilters qs (i :: sl) =
      applyAddFilters
        (if knownField (i.field.getD "start_time")
         then additionalQueryFilter (i.field.getD "start_time") qs else qs) sl := rfl

lemma slFields_cons (i : SortItem) (sl : List SortItem) :
    slFields (i :: sl) = i.field.getD "start_time" :: slFields sl := rfl

lemma applyAddFilters_keep (p : Req → Bool) (fname : String)
    (hfp : ∀ qs : List Req, additionalQueryFilter fname qs = qs.filter p)
    (hknown : knownField fname = true)
    (sl : List SortItem) (qs : List Req) (hmem : fname ∈ slFields sl) :
    ∀ r ∈ applyAddFilters qs sl, p r = true := by
  induction sl generalizing qs with
  | nil => cases hmem
  | cons i sl ih =>
    intro r hr
    rw [applyAddFilters_cons] at hr
    by_cases hf : i.field.getD "start_time" = fname
    · rw [hf, if_pos hknown, hfp] at hr
      have hsub := applyAddFilters_sublist (qs.filter p) sl
      exact (List.mem_filter.mp (hsub.mem hr)).2
    · have hrest : fname ∈ slFields sl := by
        rw [slFields_cons] at hmem
        rcases List.mem_cons.mp hmem with h | h
        · exact absurd h.symm hf
        · exact h
      exact ih _ hrest r hr

lemma filter_length_lt {p : Req → Bool} {qs : List Req} {r : Req}
    (hr : r ∈ qs) (hp : p r = false) : (qs.filter p).length < qs.length := by
  induction qs with
  | nil => cases hr
  | cons h t ih =>
    rcases List.mem_cons.mp hr with rfl | hm
    · rw [List.filter_cons_of_neg (by simp [hp])]
      exact Nat.lt_succ_of_le (List.length_filter_le p t)
    · by_cases hh : p h = true
      · rw [List.filter_cons_of_pos hh]
        simpa using ih hm
      · rw [List.filter_cons_of_neg (by simp [hh])]
        exact Nat.lt_succ_of_lt (ih hm)

lemma sortFields_cons (i : SortItem) (sl : List SortItem) :
    sortFields (i :: sl) =
      if knownField (i.field.getD "start_time")
      then (i.field.getD "start_time", decide (i.dir.getD "DESC" = "DESC")) :: sortFields sl
      else sortFields sl := rfl

lemma sortFields_filter_known (sl : List SortItem) :
    sortFields (sl.filter (fun i => knownField (i.field.getD "start_time"))) =
      sortFields sl := by
  induction sl with
  | nil => rfl
  | cons i sl ih =>
    by_cases h : knownField (i.field.getD "start_time") = true
    · simp [List.filter_cons, h, sortFields_cons, ih]
    · simp [List.filter_cons, h, sortFields_cons, ih]

lemma applyAddFilters_filter_known (qs : List Req) (sl : List SortItem) :
    applyAddFilters qs (sl.filter (fun i => knownField (i.field.getD "start_time"))) =
      applyAddFilters qs sl := by
  induction sl generalizing qs with
  | nil => rfl
  | cons i sl ih =>
    by_cases h : knownField (i.field.getD "start_time") = true
    · simp [List.filter_cons, h, applyAddFilters_cons, ih]
    · simp [List.filter_cons, h, applyAddFilters_cons, ih]

lemma applySort_skips_unknown (qs : List Req) (sl : List SortItem) :
    applySort qs (sl.filter (fun i => knownField (i.field.getD "start_time"))) =
      applySort qs sl := by
  unfold applySort
  rw [sortFields_filter_known, applyAddFilters_filter_known]

lemma additionalQueryFilter_time (qs : List Req) :
    additionalQueryFilter "time_taken" qs = qs.filter keepTimeTaken := rfl

lemma additionalQueryFilter_db (qs : List Req) :
    additionalQueryFilter "db_time" qs = qs.filter keepDbTime := rfl

lemma applySort_filter_package (p : Req → Bool) (fname : String)
    (hfp : ∀ qs : List Req, additionalQueryFilter fname qs = qs.filter p)
    (hknown : knownField fname = true)
    (qs : List Req) (sl : List SortItem) (hmem : fname ∈ slFields sl) :
    (∀ r ∈ applySort qs sl, p r = true) ∧
    (applySort qs sl).Subperm qs ∧
    (∀ r ∈ qs, p r = false → (applySort qs sl).length < qs.length) := by
  have hperm := applySort_perm qs sl
  have hkeep := applyAddFilters_keep p fname hfp hknown sl qs hmem
  have hsub := applyAddFilters_sublist qs sl
  refine ⟨?_, ?_, ?_⟩
  · intro r hr
    exact hkeep r (hperm.mem_iff.mp hr)
  · exact ⟨applyAddFilters qs sl, hperm.symm, hsub⟩
  · intro r hr hp
    have h1 : (applyAddFilters qs sl).filter p = applyAddFilters qs sl :=
      List.filter_eq_self.mpr (fun a ha => hkeep a ha)
    have h2 : ((applyAddFilters qs sl).filter p).Sublist (qs.filter p) :=
      hsub.filter p
    rw [h1] at h2
    calc (applySort qs sl).length
        = (applyAddFilters qs sl).length := hperm.length_eq
      _ ≤ (qs.filter p).length := h2.length_le
      _ < qs.length := filter_length_lt hr hp

lemma detect_groups_eq (qs : List QueryRecord) (th : Nat) :
    (detect_n_plus_one qs th).groups =
      sortDesc (((buildBuckets qs).filter (fun b => th ≤ b.2.length)).map
        (fun b => mkNPlusOneGroup b.1 b.2)) := rfl

lemma mem_flagged_iff {qs : List QueryRecord} {th : Nat} {g : NPlusOneGroup} :
    g ∈ ((buildBuckets qs).filter (fun b => th ≤ b.2.length)).map
        (fun b => mkNPlusOneGroup b.1 b.2) ↔
      ∃ pr ∈ buildBuckets qs, th ≤ pr.2.length ∧ g = mkNPlusOneGroup pr.1 pr.2 := by
  rw [List.mem_map]
  constructor
  · rintro ⟨pr, hpr, rfl⟩
    have h := List.mem_filter.mp hpr
    exact ⟨pr, h.1, by simpa using h.2, rfl⟩
  · rintro ⟨pr, hpr, hth, rfl⟩
    exact ⟨pr, List.mem_filter.mpr ⟨hpr, by simpa using hth⟩, rfl⟩

lemma flagged_map_fingerprint (qs : List QueryRecord) (th : Nat) :
    (((buildBuckets qs).filter (fun b => th ≤ b.2.length)).map
        (fun b => mkNPlusOneGroup b.1 b.2)).map (fun g => g.fingerprint) =
      ((buildBuckets qs).filter (fun b => th ≤ b.2.length)).map Prod.fst := by
  rw [List.map_map]
  rfl

lemma mem_buckets_fst {qs : List QueryRecord} {fp : List Char} :
    fp ∈ (buildBuckets qs).map Prod.fst ↔
      fp ∈ qs.map (fun q => fingerprint_query q.query) := by
  rw [map_fst_buildBuckets]
  exact mem_firstOccur

lemma length_of_mem_buckets {qs : List QueryRecord}
    {pr : List Char × List QueryRecord} (h : pr ∈ buildBuckets qs) :
    pr.2.length = fpCount qs pr.1 := by
  rw [mem_buildBuckets_eq h]
  rfl

end Silky

/-- **C3.** `detect_n_plus_one` returns exactly one group per fingerprint
whose member count is at least the threshold (none below threshold); each
group's `queries` is the subsequence of the input with that fingerprint in
first-seen order, with `count = len(queries)`; the groups are sorted
descending by count; and ties between equal counts keep the first-encounter
order of the fingerprints. -/
theorem C3_detect_n_plus_one (qs : List Silky.QueryRecord) (threshold : Nat) :
    (∀ g ∈ (Silky.detect_n_plus_one qs threshold).groups,
        g.queries = qs.filter (fun q => Silky.fingerprint_query q.query = g.fingerprint) ∧
        g.count = g.queries.length ∧ threshold ≤ g.count) ∧
    ((Silky.detect_n_plus_one qs threshold).groups.map (fun g => g.fingerprint)).Nodup ∧
    (∀ fp, fp ∈ (Silky.detect_n_plus_one qs threshold).groups.map (fun g => g.fingerprint) ↔
        threshold ≤ Silky.fpCount qs fp ∧
          fp ∈ qs.map (fun q => Silky.fingerprint_query q.query)) ∧
    (Silky.detect_n_plus_one qs threshold).groups.Pairwise (fun a b => b.count ≤ a.count) ∧
    (∀ c : Nat,
        ((Silky.detect_n_plus_one qs threshold).groups.filter
            (fun g => g.count = c)).map (fun g => g.fingerprint) =
          (Silky.firstSeenFps qs).filter
            (fun fp => Silky.fpCount qs fp = c ∧ threshold ≤ c)) := by
  rw [Silky.detect_groups_eq]
  set buckets := Silky.buildBuckets qs with hbuckets
  set flagged := ((Silky.buildBuckets qs).filter (fun b => threshold ≤ b.2.length)).map
    (fun b => Silky.mkNPlusOneGroup b.1 b.2) with hflagged
  have hperm : List.Perm (Silky.sortDesc flagged) flagged := Silky.sortDesc_perm flagged
  refine ⟨?_, ?_, ?_, Silky.sortDesc_pairwise flagged, ?_⟩
  · intro g hg
    have hgf : g ∈ flagged := hperm.mem_iff.mp hg
    obtain ⟨pr, hpr, hth, rfl⟩ := Silky.mem_flagged_iff.mp hgf
    have hq := Silky.mem_buildBuckets_eq hpr
    refine ⟨by simpa [Silky.mkNPlusOneGroup] using hq, rfl, by simpa [Silky.mkNPlusOneGroup] using hth⟩
  · have hnd : (flagged.map (fun g => g.fingerprint)).Nodup := by
      rw [hflagged, Silky.flagged_map_fingerprint]
      refine List.Nodup.sublist ((List.filter_sublist _).map Prod.fst) ?_
      rw [Silky.map_fst_buildBuckets]
      exact Silky.firstOccur_nodup _
    exact (hperm.map (fun g => g.fingerprint)).nodup_iff.mpr hnd
  · intro fp
    rw [List.mem_map]
    constructor
    · rintro ⟨g, hg, rfl⟩
      obtain ⟨pr, hpr, hth, rfl⟩ := Silky.mem_flagged_iff.mp (hperm.mem_iff.mp hg)
      have hlen := Silky.length_of_mem_buckets hpr
      refine ⟨?_, ?_⟩
      · show threshold ≤ Silky.fpCount qs pr.1
        rw [← hlen]
        exact hth
      · show pr.1 ∈ qs.map (fun q => Silky.fingerprint_query q.query)
        rw [← Silky.mem_buckets_fst]
        exact List.mem_map.mpr ⟨pr, hpr, rfl⟩
    · rintro ⟨hth, hmem⟩
      rw [← Silky.mem_buckets_fst] at hmem
      obtain ⟨pr, hpr, rfl⟩ := List.mem_map.mp hmem
      have hlen := Silky.length_of_mem_buckets hpr
      refine ⟨Silky.mkNPlusOneGroup pr.1 pr.2, ?_, rfl⟩
      exact hperm.mem_iff.mpr (Silky.mem_flagged_iff.mpr ⟨pr, hpr, by rw [hlen]; exact hth, rfl⟩)
  · intro c
    rw [Silky.sortDesc_filter_count, hflagged]
    rw [List.filter_map, List.map_map]
    have hcomp1 : ((fun g : Silky.NPlusOneGroup => g.fingerprint) ∘
        (fun b : List Char × List Silky.QueryRecord => Silky.mkNPlusOneGroup b.1 b.2)) =
        Prod.fst := rfl
    have hcomp2 : ((fun g : Silky.NPlusOneGroup => decide (g.count = c)) ∘
        (fun b : List Char × List Silky.QueryRecord => Silky.mkNPlusOneGroup b.1 b.2)) =
        (fun pr : List Char × List Silky.QueryRecord => decide (pr.2.length = c)) := rfl
    rw [hcomp1, hcomp2, List.filter_filter]
    have hfs : Silky.firstSeenFps qs = (Silky.buildBuckets qs).map Prod.fst :=
      (Silky.map_fst_buildBuckets qs).symm
    rw [hfs, List.filter_map]
    congr 1
    apply List.filter_congr
    intro pr hpr
    have hlen := Silky.length_of_mem_buckets hpr
    simp only [Function.comp_apply]
    rw [hlen]
    by_cases h1 : Silky.fpCount qs pr.1 = c <;> by_cases h2 : threshold ≤ c <;>
      simp [h1, h2]

/-- Witness for C3 at a concrete input: three identical queries with
threshold 3 produce one group of count 3 holding the inputs in order. -/
theorem C3_detect_n_plus_one_witness :
    (Silky.mkNPlusOneGroup ['s']
        [⟨1, ['s']⟩, ⟨2, ['s']⟩, ⟨3, ['s']⟩]).queries =
      ([⟨1, ['s']⟩, ⟨2, ['s']⟩, ⟨3, ['s']⟩] : List Silky.QueryRecord).filter
        (fun q => Silky.fingerprint_query q.query =
          (Silky.mkNPlusOneGroup ['s']
            [⟨1, ['s']⟩, ⟨2, ['s']⟩, ⟨3, ['s']⟩]).fingerprint) :=
  ((C3_detect_n_plus_one [⟨1, ['s']⟩, ⟨2, ['s']⟩, ⟨3, ['s']⟩] 3).1
    (Silky.mkNPlusOneGroup ['s'] [⟨1, ['s']⟩, ⟨2, ['s']⟩, ⟨3, ['s']⟩])
    (by decide)).1


/-- **C9.** Sorting with `time_taken` or `db_time` in the spec is not a pure
reordering: `_apply_sort` additionally applies the field's
`additional_query_filter`, so every surviving record has a non-null,
non-negative value for the field, the output is a permutation of a
sub-multiset of the input, and the output is strictly shorter whenever a
null-or-negative record is present. -/
theorem C9_additional_filters_not_pure_reordering
    (qs : List Silky.Req) (sl : List Silky.SortItem) :
    (("time_taken" ∈ Silky.slFields sl) →
      (∀ r ∈ Silky.applySort qs sl, Silky.keepTimeTaken r = true) ∧
      (Silky.applySort qs sl).Subperm qs ∧
      (∀ r ∈ qs, Silky.keepTimeTaken r = false →
        (Silky.applySort qs sl).length < qs.length)) ∧
    (("db_time" ∈ Silky.slFields sl) →
      (∀ r ∈ Silky.applySort qs sl, Silky.keepDbTime r = true) ∧
      (Silky.applySort qs sl).Subperm qs ∧
      (∀ r ∈ qs, Silky.keepDbTime r = false →
        (Silky.applySort qs sl).length < qs.length)) :=
  ⟨fun hmem => Silky.applySort_filter_package Silky.keepTimeTaken "time_taken"
      Silky.additionalQueryFilter_time (by decide) qs sl hmem,
   fun hmem => Silky.applySort_filter_package Silky.keepDbTime "db_time"
      Silky.additionalQueryFilter_db (by decide) qs sl hmem⟩

/-- Witness for C9 at a concrete input: one record with null `time_taken` is
dropped by a `time_taken` sort. -/
theorem C9_additional_filters_not_pure_reordering_witness :
    (Silky.applySort [⟨1, "/", "v", "GET", 0, none, 0, []⟩]
        [⟨some "time_taken", some "ASC"⟩]).length <
      ([⟨1, "/", "v", "GET", 0, none, 0, []⟩] : List Silky.Req).length :=
  ((C9_additional_filters_not_pure_reordering
      [⟨1, "/", "v", "GET", 0, none, 0, []⟩]
      [⟨some "time_taken", some "ASC"⟩]).1 (by decide)).2.2
    ⟨1, "/", "v", "GET", 0, none, 0, []⟩ (by decide) (by decide)

/-- **C5, counterexample.** The legacy `order_by`/`order_dir` arm of
`_get_objects` raises `RuntimeError('Unknown order_by: "bogus"')` for an
unknown sort field instead of silently skipping it, refuting "never an error
anywhere in the sort path". -/
theorem C5_unknown_sort_field_counterexample :
    Silky.getObjects Silky.ShowParam.notSet (some "bogus") none none [] none [] =
      Except.error "Unknown order_by: \"bogus\"" := rfl

/-- **C5, amended.** Unknown fields in a `sort_criteria` list are silently
skipped by `_apply_sort` (the result equals sorting by the known entries
only) and the `sort_list` path of `_get_objects` never errors; the legacy
single `order_by` form returns normally for a known field but raises
`RuntimeError` for an unknown non-empty `order_by`. -/
theorem C5_unknown_sort_field_amended :
    (∀ (qs : List Silky.Req) (sl : List Silky.SortItem),
      Silky.applySort qs
          (sl.filter (fun i => Silky.knownField (i.field.getD "start_time"))) =
        Silky.applySort qs sl) ∧
    (∀ (show? : Silky.ShowParam) (ob od path : Option String)
        (filters : List (Silky.Req → Bool)) (sl : List Silky.SortItem)
        (base : List Silky.Req), sl ≠ [] →
      ∃ res, Silky.getObjects show? ob od path filters (some sl) base =
        Except.ok res) ∧
    (∀ (show? : Silky.ShowParam) (ob : String) (od path : Option String)
        (filters : List (Silky.Req → Bool)) (base : List Silky.Req),
      Silky.knownField ob = true →
      ∃ res, Silky.getObjects show? (some ob) od path filters none base =
        Except.ok res) ∧
    (∀ (show? : Silky.ShowParam) (ob : String) (od path : Option String)
        (filters : List (Silky.Req → Bool)) (base : List Silky.Req),
      Silky.knownField ob = false → ob ≠ "" →
      ∃ e, Silky.getObjects show? (some ob) od path filters none base =
        Except.error e) := by
  refine ⟨Silky.applySort_skips_unknown, ?_, ?_, ?_⟩
  · intro show? ob od path filters sl base hsl
    have hempty : sl.isEmpty = false := by
      simpa [List.isEmpty_iff] using hsl
    unfold Silky.getObjects
    dsimp only
    rw [if_neg (show ¬ sl.isEmpty = true by simp [hempty])]
    exact ⟨_, rfl⟩
  · intro show? ob od path filters base hk
    have hne : ob ≠ "" := by
      intro h
      rw [h] at hk
      exact absurd hk (by decide)
    unfold Silky.getObjects Silky.legacyOrder
    dsimp only
    rw [if_neg hne, if_pos hk]
    exact ⟨_, rfl⟩
  · intro show? ob od path filters base hk hne
    unfold Silky.getObjects Silky.legacyOrder
    dsimp only
    rw [if_neg hne, if_neg (by simpa using hk)]
    exact ⟨_, rfl⟩

/-- Witness for C5's amended theorem at a concrete input. -/
theorem C5_unknown_sort_field_amended_witness :
    ∃ res, Silky.getObjects Silky.ShowParam.notSet none none none []
        (some [⟨some "bogus", some "ASC"⟩]) [] = Except.ok res :=
  C5_unknown_sort_field_amended.2.1 Silky.ShowParam.notSet none none none []
    [⟨some "bogus", some "ASC"⟩] [] (by decide)


/-- **C2.** `fingerprint_query` is deterministic, and any two SQL texts
related by a chain of elementary differences — single-quoted string literal
contents, standalone integer literal digits, amount/kind of consecutive
whitespace, or letter case — have identical fingerprints; in particular the
spec's two example pairs fingerprint equal. -/
theorem C2_fingerprint_query_invariance :
    (∀ s : List Char, Silky.fingerprint_query s = Silky.fingerprint_query s) ∧
    (∀ x y : List Char, Relation.ReflTransGen Silky.LiteralDiff x y →
      Silky.fingerprint_query x = Silky.fingerprint_query y) ∧
    Silky.fingerprint_query ("SELECT * FROM \"t\" WHERE id = 5".toList) =
      Silky.fingerprint_query ("select * from \"t\" where id = 42".toList) ∧
    Silky.fingerprint_query ("SELECT * FROM \"t\" WHERE id = 'x'".toList) =
      Silky.fingerprint_query ("SELECT * FROM \"t\" WHERE id = 'y'".toList) := by
  refine ⟨fun s => rfl, ?_, by decide, by decide⟩
  intro x y h
  induction h with
  | refl => rfl
  | tail _ hstep ih => exact ih.trans (Silky.fingerprint_step_invariant hstep)

/-- Witness for C2 at a concrete single difference step: the integer
literals `5` and `42` in the same context fingerprint equal. -/
theorem C2_fingerprint_query_invariance_witness :
    Silky.fingerprint_query ("id = ".toList ++ ['5'] ++ []) =
      Silky.fingerprint_query ("id = ".toList ++ ['4', '2'] ++ []) :=
  C2_fingerprint_query_invariance.2.1 _ _
    (Relation.ReflTransGen.single
      (Silky.LiteralDiff.intLit ("id = ".toList) ['5'] ['4', '2'] []
        (by decide) (by decide) (by decide) (by decide) (by decide)
        (Or.inr ⟨"id =".toList, ' ', by decide, by decide, by decide⟩)
        (Or.inl rfl)))

/-- **C8, counterexample.** Double-quoted segments are not left untouched:
in `SELECT "A 2"` the segment `"A 2"` is lower-cased and its standalone
digit is replaced, so it does not appear in the output as it appeared in
the input (the fingerprint is `select "a ?"`). -/
theorem C8_double_quoted_counterexample :
    ¬ (('"' :: 'A' :: ' ' :: '2' :: ['"']).IsInfix
        (Silky.fingerprint_query ("SELECT \"A 2\"".toList))) := by
  decide

/-- **C8, amended.** A double-quoted identifier whose content is a nonempty
run of lowercase letters and underscores, appearing outside any
single-quoted literal (an even number of single quotes precede it), passes
through `fingerprint_query` verbatim: the segment, quotes included, is an
infix of the output. -/
theorem C8_double_quoted_identifiers_amended
    (p a q : List Char) (hp : Even (List.count '\'' p)) (hne : a ≠ [])
    (ha : ∀ c ∈ a, c.isLower = true ∨ c = '_') :
    ('"' :: a ++ ['"']).IsInfix
      (Silky.fingerprint_query (p ++ '"' :: a ++ '"' :: q)) := by
  have haw : ∀ c ∈ a, Silky.isWordChar c = true ∧ c.isDigit = false := by
    intro c hc
    rcases ha c hc with h | rfl
    · have hb := (Silky.isLower_iff c).mp h
      constructor
      · rw [Silky.isWordChar_iff]
        omega
      · rw [← Bool.not_eq_true, Silky.isDigit_iff]
        omega
    · exact ⟨by decide, by decide⟩
  have hanq : '\'' ∉ a := by
    intro hmem
    rcases ha _ hmem with h | h
    · have := (Silky.isLower_iff _).mp h
      rw [Silky.quote_toNat] at this
      omega
    · exact absurd h (by decide)
  have hans : ∀ c ∈ a, Silky.isSpaceChar c = false := by
    intro c hc
    rcases ha c hc with h | rfl
    · have hb := (Silky.isLower_iff c).mp h
      rw [← Bool.not_eq_true, Silky.isSpaceChar_iff]
      omega
    · decide
  -- Stage 1: the string-literal substitution leaves the segment alone.
  have hm : List.count '\'' ('"' :: a) = 0 := by
    rw [List.count_eq_zero]
    intro hmem
    rcases List.mem_cons.mp hmem with h | h
    · exact absurd h.symm (by decide)
    · exact hanq h
  have hshape : p ++ '"' :: a ++ '"' :: q = p ++ ('"' :: a) ++ ('"' :: q) := rfl
  have hrsq : Silky.replaceStrings ('"' :: q) =
      '"' :: Silky.replaceStrings q := by
    unfold Silky.replaceStrings
    rw [Silky.rsLoop_cons_none, if_neg (by decide)]
  have hrs : Silky.replaceStrings (p ++ '"' :: a ++ '"' :: q) =
      Silky.replaceStrings p ++ ('"' :: a) ++ ('"' :: Silky.replaceStrings q) := by
    rw [hshape, Silky.replaceStrings_mid hp hm, hrsq]
  -- Stage 2: the number substitution leaves the segment alone.
  have hrn : Silky.rnLoop (Silky.replaceStrings p ++ ('"' :: a) ++
        ('"' :: Silky.replaceStrings q)) false [] =
      Silky.rnLoop (Silky.replaceStrings p) false [] ++
        ('"' :: a ++ ['"']) ++ Silky.rnLoop (Silky.replaceStrings q) false [] := by
    rw [List.append_assoc, List.cons_append,
      Silky.rnLoop_append_nonword (Silky.replaceStrings p) false [] '"'
        (a ++ '"' :: Silky.replaceStrings q) (by decide)]
    have h1 : Silky.rnLoop ('"' :: (a ++ '"' :: Silky.replaceStrings q)) false [] =
        '"' :: Silky.rnLoop (a ++ '"' :: Silky.replaceStrings q) false [] := by
      rw [Silky.rnLoop_cons]
      simp [show ('"').isDigit = false by decide, show Silky.isWordChar '"' = false by decide]
    rw [h1, Silky.rnLoop_word_run a ('"' :: Silky.replaceStrings q) false haw]
    have h2 : ∀ b : Bool, Silky.rnLoop ('"' :: Silky.replaceStrings q) b [] =
        '"' :: Silky.rnLoop (Silky.replaceStrings q) false [] := by
      intro b
      rw [Silky.rnLoop_cons]
      simp [show ('"').isDigit = false by decide, show Silky.isWordChar '"' = false by decide]
    rw [h2]
    simp
  -- Stage 3: whitespace collapsing leaves the segment alone.
  have hseg_nospace : ∀ c ∈ '"' :: a ++ ['"'], Silky.isSpaceChar c = false := by
    intro c hc
    rcases List.mem_cons.mp hc with rfl | hc
    · decide
    · rcases List.mem_append.mp hc with hc | hc
      · exact hans c hc
      · rcases List.mem_singleton.mp hc with rfl
        decide
  have hcw : Silky.cwLoop (Silky.rnLoop (Silky.replaceStrings p) false [] ++
        ('"' :: a ++ ['"']) ++ Silky.rnLoop (Silky.replaceStrings q) false []) false =
      Silky.cwLoop (Silky.rnLoop (Silky.replaceStrings p) false []) false ++
        (('"' :: a ++ ['"']) ++
          Silky.cwLoop (Silky.rnLoop (Silky.replaceStrings q) false [])
            (if ('"' :: a ++ ['"']).isEmpty then
              Silky.wsState false (Silky.rnLoop (Silky.replaceStrings p) false [])
             else false)) := by
    rw [List.append_assoc,
      Silky.cwLoop_append (Silky.rnLoop (Silky.replaceStrings p) false []),
      Silky.cwLoop_no_space ('"' :: a ++ ['"'])
        (Silky.rnLoop (Silky.replaceStrings q) false []) _ hseg_nospace]
  -- Assemble: the segment is an infix before strip/lower and survives them.
  have hinfix : ('"' :: a ++ ['"']).IsInfix
      (Silky.collapseWhitespace (Silky.replaceNumbers
        (Silky.replaceStrings (p ++ '"' :: a ++ '"' :: q)))) := by
    unfold Silky.replaceNumbers Silky.collapseWhitespace
    rw [hrs, hrn, hcw]
    exact ⟨Silky.cwLoop (Silky.rnLoop (Silky.replaceStrings p) false []) false,
      Silky.cwLoop (Silky.rnLoop (Silky.replaceStrings q) false []) _,
      by rw [List.append_assoc]⟩
  have hstrip := Silky.infix_pyStrip (List.cons_ne_nil _ _) hseg_nospace hinfix
  have hbody : ∀ l : List Char, (∀ c ∈ l, c.isLower = true ∨ c = '_') →
      l.map Silky.lowerChar = l := by
    intro l
    induction l with
    | nil => intro _; rfl
    | cons c l ih =>
      intro hl
      rw [List.map_cons,
        Silky.lowerChar_eq_self_of_keeps (by
          rcases hl c (List.mem_cons_self c l) with h | rfl
          · exact Or.inl h
          · exact Or.inr (Or.inl rfl)),
        ih (fun x hx => hl x (List.mem_cons_of_mem c hx))]
  have hfix : ('"' :: a ++ ['"']).map Silky.lowerChar = '"' :: a ++ ['"'] := by
    rw [List.map_append, List.map_cons, List.map_singleton,
      Silky.lowerChar_eq_self_of_keeps (Or.inr (Or.inr rfl)), hbody a ha]
  obtain ⟨u, v, huv⟩ := hstrip
  show ('"' :: a ++ ['"']).IsInfix
    ((Silky.pyStrip (Silky.collapseWhitespace (Silky.replaceNumbers
      (Silky.replaceStrings (p ++ '"' :: a ++ '"' :: q))))).map Silky.lowerChar)
  refine ⟨u.map Silky.lowerChar, v.map Silky.lowerChar, ?_⟩
  rw [← hfix, ← List.map_append, ← List.map_append, ← huv]
  simp

/-- Witness for C8's amended theorem at a concrete input. -/
theorem C8_double_quoted_identifiers_amended_witness :
    ('"' :: "tbl".toList ++ ['"']).IsInfix
      (Silky.fingerprint_query ("SELECT * FROM ".toList ++ '"' :: "tbl".toList ++ '"' :: [])) :=
  C8_double_quoted_identifiers_amended ("SELECT * FROM ".toList) ("tbl".toList) []
    (by decide) (by decide) (by decide)
